import Mathlib

/-!
Verification of the on-device metric visualization and interaction engine of
the wrist-and-biases Pebble application.

The definitions below are shallow embeddings of the C functions in
src/c/wandb-for-pebble.c (fixed-point codec, graph scaling, scrub state
machine, animation interpolators) and of the JavaScript packing function in
src/pkjs/index.js.  C `int32_t`/`int64_t` arithmetic is modelled on `Int`;
C integer division and remainder truncate toward zero, so they are modelled
with `Int.tdiv` and `Int.tmod`.  C strings are modelled as `List Char`
(without the terminating NUL).
-/

namespace WandB

/-- `#define FIXED_POINT_SCALE 10000` (4 implied decimal digits). -/
def FIXED_POINT_SCALE : Nat := 10000

/-- `#define SCRUB_FIXED_SCALE 1000` (scrub index fixed-point scale). -/
def SCRUB_FIXED_SCALE : Int := 1000

/-- Pebble SDK constant `ANIMATION_NORMALIZED_MAX` (65535). -/
def ANIMATION_NORMALIZED_MAX : Int := 65535

/-- `#define MAX_METRICS_PER_RUN 8` from wandb-for-pebble.c line 8. -/
def MAX_METRICS_PER_RUN : Nat := 8

/-- `#define MAX_HISTORY_POINTS 20`. -/
def MAX_HISTORY_POINTS : Nat := 20

/-- `#define MAX_NAME_LENGTH 32`. -/
def MAX_NAME_LENGTH : Nat := 32

/-! ## Fixed-point value codec (parse_fixed_point / format_fixed_point) -/

/-- The character for a single decimal digit. -/
def digitChar (d : Fin 10) : Char := Char.ofNat (48 + d.val)

/-- A run of decimal digit characters. -/
def renderDigits (ds : List (Fin 10)) : List Char := ds.map digitChar

/-- The decimal string determined by an optional minus sign, a nonempty list
of integer-part digits and a (possibly empty) list of fractional digits.
`renderDec neg ip fp` with `ip ≠ []` and `1 ≤ fp.length ≤ 4` (or `fp = []`,
meaning no decimal point) ranges over exactly the strings matching the
pattern of an optional minus, digits, and an optional dot followed by one to
four digits. -/
def renderDec (neg : Bool) (ip fp : List (Fin 10)) : List Char :=
  (if neg then ['-'] else []) ++ renderDigits ip ++
    (if fp.isEmpty then [] else '.' :: renderDigits fp)

/-- The numeric value of the digit string, as a big-endian fold. -/
def digitsToNat (ds : List (Fin 10)) : Nat :=
  ds.foldl (fun a d => 10 * a + d.val) 0

/-- The exact numeric value of the decimal string `renderDec neg ip fp`,
expressed at the fixed-point scale 10000 (assuming `fp.length ≤ 4`). -/
def decValue (neg : Bool) (ip fp : List (Fin 10)) : Int :=
  (if neg then -1 else 1) *
    ((digitsToNat ip : Int) * 10000 + (digitsToNat fp : Int) * 10 ^ (4 - fp.length))

/-- The scanning loop of `parse_fixed_point` (wandb-for-pebble.c lines
365-378): accumulates `result` digit by digit, records whether a decimal
point has been seen and how many fractional digits were read, stops at the
first non-numeric character, and stops after the fourth fractional digit. -/
def parseCore : List Char → Int → Bool → Nat → Int × Nat
  | [], result, _, decPl => (result, decPl)
  | c :: rest, result, seenDec, decPl =>
    if c = '.' then
      parseCore rest result true decPl
    else if 48 ≤ c.toNat ∧ c.toNat ≤ 57 then
      let r := result * 10 + ((c.toNat : Int) - 48)
      if seenDec then
        if 4 ≤ decPl + 1 then (r, decPl + 1)
        else parseCore rest r true (decPl + 1)
      else parseCore rest r false decPl
    else (result, decPl)

/-- `parse_fixed_point` (wandb-for-pebble.c lines 354-387): parses a decimal
string to a scaled integer (scale 10000) and reports the number of
significant fractional digits in the source text. -/
def parse_fixed_point (s : List Char) : Int × Nat :=
  let sign : Int := if s.head? = some '-' then -1 else 1
  let s' := if s.head? = some '-' then s.tail else s
  let p := parseCore s' 0 false 0
  (sign * (p.1 * 10 ^ (4 - p.2)), p.2)

/-- Decimal digits of `n`, least significant first (`[]` for `0`). -/
def natToDigitsRev (n : Nat) : List (Fin 10) :=
  if h : n = 0 then []
  else ⟨n % 10, by omega⟩ :: natToDigitsRev (n / 10)
termination_by n
decreasing_by exact Nat.div_lt_self (Nat.pos_of_ne_zero h) (by omega)

/-- Decimal digits of `n`, most significant first, `[0]` for `0` (the digit
sequence printed by `snprintf` with `%ld` for a nonnegative argument). -/
def natDigits (n : Nat) : List (Fin 10) :=
  if n = 0 then [0] else (natToDigitsRev n).reverse

/-- Zero-pad a digit sequence on the left to width `d` (the effect of the
`%0*ld` format used for the fractional part). -/
def padDigits (d : Nat) (ds : List (Fin 10)) : List (Fin 10) :=
  List.replicate (d - ds.length) 0 ++ ds

/-- `format_fixed_point` (wandb-for-pebble.c lines 390-409): formats a
scaled integer back to a decimal string with exactly `decimals` fractional
digits (none, and no dot, when `decimals = 0`). -/
def format_fixed_point (value : Int) (decimals : Nat) : List Char :=
  let v : Nat := value.natAbs
  let integer_part := v / FIXED_POINT_SCALE
  let frac_part := v % FIXED_POINT_SCALE
  if decimals = 0 then
    (if value < 0 then ['-'] else []) ++ renderDigits (natDigits integer_part)
  else
    let divisor := 10 ^ (4 - decimals)
    (if value < 0 then ['-'] else []) ++ renderDigits (natDigits integer_part) ++
      '.' :: renderDigits (padDigits decimals (natDigits (frac_part / divisor)))

/-! ### Codec lemmas -/

theorem digitChar_toNat : ∀ d : Fin 10, (digitChar d).toNat = 48 + d.val := by
  decide

theorem digitChar_ne_dot : ∀ d : Fin 10, digitChar d ≠ '.' := by decide

theorem digitChar_ne_minus : ∀ d : Fin 10, digitChar d ≠ '-' := by decide

theorem foldl_digits (ds : List (Fin 10)) (a : Nat) :
    ds.foldl (fun x d => 10 * x + d.val) a = a * 10 ^ ds.length + digitsToNat ds := by
  induction ds generalizing a with
  | nil => simp [digitsToNat]
  | cons d ds ih =>
    show List.foldl _ (10 * a + d.val) ds =
      a * 10 ^ (d :: ds).length + digitsToNat (d :: ds)
    have h2 : digitsToNat (d :: ds) = d.val * 10 ^ ds.length + digitsToNat ds := by
      show List.foldl _ (10 * 0 + d.val) ds = _
      rw [ih (10 * 0 + d.val)]
      ring
    rw [ih (10 * a + d.val), h2, List.length_cons]
    ring

theorem digitsToNat_cons (d : Fin 10) (ds : List (Fin 10)) :
    digitsToNat (d :: ds) = d.val * 10 ^ ds.length + digitsToNat ds := by
  show List.foldl _ (10 * 0 + d.val) ds = _
  rw [foldl_digits]
  ring

theorem parseCore_digit_step (d : Fin 10) (rest : List Char) (r : Int) (b : Bool)
    (decPl : Nat) :
    parseCore (digitChar d :: rest) r b decPl =
      (if b then
        (if 4 ≤ decPl + 1 then (r * 10 + (d.val : Int), decPl + 1)
         else parseCore rest (r * 10 + (d.val : Int)) true (decPl + 1))
       else parseCore rest (r * 10 + (d.val : Int)) false decPl) := by
  have hdot := digitChar_ne_dot d
  have htn := digitChar_toNat d
  have hd9 : d.val ≤ 9 := by omega
  have hacc : r * 10 + (((digitChar d).toNat : Nat) : Int) - 48 = r * 10 + (d.val : Int) := by
    rw [htn]; push_cast; ring
  simp only [parseCore, if_neg hdot, htn]
  rw [if_pos (by omega : 48 ≤ 48 + d.val ∧ 48 + d.val ≤ 57)]
  have : ((48 + d.val : Nat) : Int) - 48 = (d.val : Int) := by push_cast; ring
  rw [this]

theorem parseCore_digits (ds : List (Fin 10)) (rest : List Char) (r : Int) :
    parseCore (renderDigits ds ++ rest) r false 0 =
      parseCore rest (r * 10 ^ ds.length + (digitsToNat ds : Int)) false 0 := by
  induction ds generalizing r with
  | nil => simp [renderDigits, digitsToNat]
  | cons d ds ih =>
    show parseCore (digitChar d :: (renderDigits ds ++ rest)) r false 0 = _
    rw [parseCore_digit_step]
    simp only [Bool.false_eq_true, if_false]
    rw [ih (r * 10 + (d.val : Int))]
    congr 1
    rw [digitsToNat_cons, List.length_cons]
    push_cast
    ring

theorem parseCore_frac (ds : List (Fin 10)) (r : Int) (decPl : Nat)
    (h : decPl + ds.length ≤ 4) :
    parseCore (renderDigits ds) r true decPl =
      (r * 10 ^ ds.length + (digitsToNat ds : Int), decPl + ds.length) := by
  induction ds generalizing r decPl with
  | nil => simp [renderDigits, parseCore, digitsToNat]
  | cons d ds ih =>
    show parseCore (digitChar d :: renderDigits ds) r true decPl = _
    rw [parseCore_digit_step]
    simp only [if_true]
    by_cases h4 : 4 ≤ decPl + 1
    · have hnil : ds = [] := by
        have : ds.length = 0 := by simp only [List.length_cons] at h; omega
        exact List.length_eq_zero.mp this
      subst hnil
      rw [if_pos h4]
      have hd1 : digitsToNat [d] = d.val := by simp [digitsToNat]
      simp only [Prod.mk.injEq, hd1, List.length_cons, List.length_nil]
      refine ⟨by push_cast; ring, trivial⟩
    · rw [if_neg h4]
      rw [ih _ (decPl + 1) (by simp only [List.length_cons] at h; omega)]
      simp only [Prod.mk.injEq]
      refine ⟨?_, by simp only [List.length_cons]; omega⟩
      rw [digitsToNat_cons, List.length_cons]
      push_cast
      ring

theorem parse_render (neg : Bool) (ip fp : List (Fin 10))
    (hip : ip ≠ []) (hfp : fp.length ≤ 4) :
    parse_fixed_point (renderDec neg ip fp) = (decValue neg ip fp, fp.length) := by
  obtain ⟨d0, ip', rfl⟩ : ∃ d0 ip', ip = d0 :: ip' := by
    cases ip with
    | nil => exact absurd rfl hip
    | cons a b => exact ⟨a, b, rfl⟩
  have hbody : ∀ sgn : Int,
      (sgn * ((parseCore (renderDigits (d0 :: ip') ++
          (if fp.isEmpty then [] else '.' :: renderDigits fp)) 0 false 0).1 *
          10 ^ (4 - (parseCore (renderDigits (d0 :: ip') ++
          (if fp.isEmpty then [] else '.' :: renderDigits fp)) 0 false 0).2)),
        (parseCore (renderDigits (d0 :: ip') ++
          (if fp.isEmpty then [] else '.' :: renderDigits fp)) 0 false 0).2) =
      (sgn * ((digitsToNat (d0 :: ip') : Int) * 10000 +
        (digitsToNat fp : Int) * 10 ^ (4 - fp.length)), fp.length) := by
    intro sgn
    rw [parseCore_digits]
    cases fp with
    | nil =>
      have h0 : digitsToNat ([] : List (Fin 10)) = 0 := rfl
      simp only [List.isEmpty_nil, if_true, parseCore, Prod.mk.injEq, h0,
        List.length_nil, Nat.sub_zero]
      refine ⟨by push_cast; ring, trivial⟩
    | cons f0 fp' =>
      simp only [List.isEmpty_cons, if_false, Bool.false_eq_true]
      rw [show parseCore ('.' :: renderDigits (f0 :: fp')) (0 * 10 ^ (d0 :: ip').length +
            (digitsToNat (d0 :: ip') : Int)) false 0 =
          parseCore (renderDigits (f0 :: fp')) (0 * 10 ^ (d0 :: ip').length +
            (digitsToNat (d0 :: ip') : Int)) true 0 by simp [parseCore]]
      rw [parseCore_frac _ _ 0 (by omega)]
      simp only [zero_mul, zero_add, Nat.zero_add, Prod.mk.injEq]
      refine ⟨?_, trivial⟩
      have h4 : (f0 :: fp').length + (4 - (f0 :: fp').length) = 4 := by omega
      rw [add_mul, mul_assoc, ← pow_add, h4]
      norm_num
  cases neg with
  | false =>
    have hhead : (renderDec false (d0 :: ip') fp).head? ≠ some '-' := by
      simp [renderDec, renderDigits]
      exact digitChar_ne_minus d0
    unfold parse_fixed_point
    rw [if_neg hhead, if_neg hhead]
    unfold renderDec
    simp only [if_neg (Bool.false_ne_true), List.nil_append]
    rw [show decValue false (d0 :: ip') fp =
      1 * ((digitsToNat (d0 :: ip') : Int) * 10000 +
        (digitsToNat fp : Int) * 10 ^ (4 - fp.length)) by
        simp [decValue]]
    exact hbody 1
  | true =>
    have hrender : renderDec true (d0 :: ip') fp =
        '-' :: (renderDigits (d0 :: ip') ++
          (if fp.isEmpty then [] else '.' :: renderDigits fp)) := by
      simp [renderDec]
    unfold parse_fixed_point
    rw [hrender]
    simp only [List.head?_cons, if_pos rfl, List.tail_cons]
    rw [show decValue true (d0 :: ip') fp =
      (-1) * ((digitsToNat (d0 :: ip') : Int) * 10000 +
        (digitsToNat fp : Int) * 10 ^ (4 - fp.length)) by
        simp [decValue]]
    exact hbody (-1)

theorem digitsToNat_append (xs ys : List (Fin 10)) :
    digitsToNat (xs ++ ys) = digitsToNat xs * 10 ^ ys.length + digitsToNat ys := by
  show List.foldl _ 0 (xs ++ ys) = _
  rw [List.foldl_append]
  exact foldl_digits ys (digitsToNat xs)

theorem digitsToNat_natToDigitsRev (n : Nat) :
    digitsToNat (natToDigitsRev n).reverse = n := by
  induction n using Nat.strong_induction_on with
  | _ n ih =>
    by_cases h : n = 0
    · subst h
      simp [natToDigitsRev, digitsToNat]
    · rw [natToDigitsRev, dif_neg h, List.reverse_cons, digitsToNat_append,
        ih (n / 10) (Nat.div_lt_self (Nat.pos_of_ne_zero h) (by omega))]
      have h1 : digitsToNat [(⟨n % 10, by omega⟩ : Fin 10)] = n % 10 := by
        simp [digitsToNat]
      rw [h1]
      simp only [List.length_cons, List.length_nil, pow_one, pow_zero]
      omega

theorem digitsToNat_natDigits (n : Nat) : digitsToNat (natDigits n) = n := by
  by_cases h : n = 0
  · subst h
    simp [natDigits, digitsToNat]
  · rw [natDigits, if_neg h]
    exact digitsToNat_natToDigitsRev n

theorem digitsToNat_lt (ds : List (Fin 10)) : digitsToNat ds < 10 ^ ds.length := by
  induction ds with
  | nil => simp [digitsToNat]
  | cons d ds ih =>
    rw [digitsToNat_cons, List.length_cons]
    have hd : d.val ≤ 9 := by omega
    have h10 : 0 < (10 : Nat) ^ ds.length := pow_pos (by omega) _
    calc d.val * 10 ^ ds.length + digitsToNat ds
        < d.val * 10 ^ ds.length + 10 ^ ds.length := by omega
      _ = (d.val + 1) * 10 ^ ds.length := by ring
      _ ≤ 10 * 10 ^ ds.length := Nat.mul_le_mul_right _ (by omega)
      _ = 10 ^ (ds.length + 1) := by ring

theorem digitsToNat_replicate_zero (k : Nat) :
    digitsToNat (List.replicate k 0) = 0 := by
  induction k with
  | zero => rfl
  | succ k ih =>
    rw [List.replicate_succ, digitsToNat_cons, ih]
    simp

theorem digitsToNat_padDigits (d : Nat) (ds : List (Fin 10)) :
    digitsToNat (padDigits d ds) = digitsToNat ds := by
  rw [padDigits, digitsToNat_append, digitsToNat_replicate_zero]
  simp

theorem padDigits_length (d : Nat) (ds : List (Fin 10)) (h : ds.length ≤ d) :
    (padDigits d ds).length = d := by
  simp only [padDigits, List.length_append, List.length_replicate]
  omega

theorem natToDigitsRev_length_le (n : Nat) (k : Nat) (h : n < 10 ^ k) :
    (natToDigitsRev n).length ≤ k := by
  induction n using Nat.strong_induction_on generalizing k with
  | _ n ih =>
    by_cases h0 : n = 0
    · subst h0
      simp [natToDigitsRev]
    · rw [natToDigitsRev, dif_neg h0, List.length_cons]
      have hk : k ≠ 0 := by
        intro hk
        subst hk
        simp at h
        omega
      have hpow : 10 ^ k = 10 ^ (k - 1) * 10 := by
        rw [← pow_succ]
        congr 1
        omega
      have hdiv : n / 10 < 10 ^ (k - 1) := by
        rw [hpow] at h
        omega
      have := ih (n / 10) (Nat.div_lt_self (Nat.pos_of_ne_zero h0) (by omega)) (k - 1) hdiv
      omega

theorem natDigits_length_le (n d : Nat) (h1 : n < 10 ^ d) (h2 : 1 ≤ d) :
    (natDigits n).length ≤ d := by
  by_cases h : n = 0
  · subst h
    simpa [natDigits] using h2
  · rw [natDigits, if_neg h, List.length_reverse]
    exact natToDigitsRev_length_le n d h1

theorem sign_mul_natAbs (V : Int) (inner : Int) (hinner : inner = (V.natAbs : Int)) :
    (if V < 0 then (-1 : Int) else 1) * inner = V := by
  by_cases hV : V < 0
  · rw [if_pos hV, hinner]
    omega
  · rw [if_neg hV, hinner]
    omega

theorem format_render (V : Int) (d : Nat) (hd4 : d ≤ 4)
    (hdvd : ((10 : Int) ^ (4 - d)) ∣ V) :
    ∃ neg2 ip2 fp2, format_fixed_point V d = renderDec neg2 ip2 fp2 ∧
      decValue neg2 ip2 fp2 = V ∧ fp2.length = d := by
  have hdvdN : 10 ^ (4 - d) ∣ V.natAbs := by
    have h1 := Int.natAbs_dvd_natAbs.mpr hdvd
    simpa [Int.natAbs_pow] using h1
  set a := V.natAbs with ha
  by_cases hd0 : d = 0
  · subst hd0
    have hdvd4 : 10 ^ 4 ∣ a := by simpa using hdvdN
    refine ⟨decide (V < 0), natDigits (a / FIXED_POINT_SCALE), [], ?_, ?_, rfl⟩
    · rw [format_fixed_point, if_pos rfl, renderDec]
      simp only [List.isEmpty_nil, if_true, List.append_nil]
      by_cases hV : V < 0
      · rw [if_pos hV, if_pos (by simpa using hV)]
      · rw [if_neg hV, if_neg (by simpa using hV)]
    · rw [decValue]
      have hb : (if (decide (V < 0) : Bool) then (-1 : Int) else 1) =
          (if V < 0 then (-1 : Int) else 1) := by
        by_cases hV : V < 0
        · rw [if_pos hV, if_pos (by simpa using hV)]
        · rw [if_neg hV, if_neg (by simpa using hV)]
      rw [hb]
      apply sign_mul_natAbs
      rw [digitsToNat_natDigits]
      have h0 : digitsToNat ([] : List (Fin 10)) = 0 := rfl
      rw [h0]
      have hN : a / FIXED_POINT_SCALE * 10000 = a := by
        have h2 : (FIXED_POINT_SCALE : Nat) = 10000 := rfl
        rw [h2]
        exact Nat.div_mul_cancel (by simpa using hdvd4)
      simp only [List.length_nil, Nat.sub_zero, Nat.cast_zero, zero_mul, add_zero]
      rw [show (10000 : Int) = ((10000 : Nat) : Int) from rfl, ← Nat.cast_mul, hN]
  · have hd1 : 1 ≤ d := by omega
    have hdivisor : (0 : Nat) < 10 ^ (4 - d) := pow_pos (by omega) _
    have hfrlt : a % FIXED_POINT_SCALE < 10 ^ 4 := by
      have : a % FIXED_POINT_SCALE < FIXED_POINT_SCALE := Nat.mod_lt _ (by simp [FIXED_POINT_SCALE])
      simpa [FIXED_POINT_SCALE] using this
    have hdvdfr : 10 ^ (4 - d) ∣ a % FIXED_POINT_SCALE := by
      have hdvd10k : (10 : Nat) ^ (4 - d) ∣ FIXED_POINT_SCALE := by
        have := pow_dvd_pow 10 (show 4 - d ≤ 4 by omega)
        simpa [FIXED_POINT_SCALE] using this
      exact (Nat.dvd_mod_iff hdvd10k).mpr hdvdN
    set fr' := a % FIXED_POINT_SCALE / 10 ^ (4 - d) with hfr'
    have hfr'lt : fr' < 10 ^ d := by
      rw [hfr']
      rw [Nat.div_lt_iff_lt_mul hdivisor]
      calc a % FIXED_POINT_SCALE < 10 ^ 4 := hfrlt
        _ = 10 ^ d * 10 ^ (4 - d) := by
            rw [← pow_add]
            congr 1
            omega
    have hlen : (natDigits fr').length ≤ d := natDigits_length_le _ _ hfr'lt hd1
    refine ⟨decide (V < 0), natDigits (a / FIXED_POINT_SCALE),
      padDigits d (natDigits fr'), ?_, ?_, padDigits_length _ _ hlen⟩
    · rw [format_fixed_point, if_neg hd0, renderDec]
      have hne : padDigits d (natDigits fr') ≠ [] := by
        intro hE
        have := padDigits_length d (natDigits fr') hlen
        rw [hE] at this
        simp at this
        omega
      have hemp : (padDigits d (natDigits fr')).isEmpty = false := by
        cases hP : padDigits d (natDigits fr') with
        | nil => exact absurd hP hne
        | cons x xs => rfl
      rw [hemp]
      simp only [Bool.false_eq_true, if_false]
      by_cases hV : V < 0
      · rw [if_pos hV, if_pos (by simpa using hV)]
      · rw [if_neg hV, if_neg (by simpa using hV)]
    · rw [decValue]
      have hb : (if (decide (V < 0) : Bool) then (-1 : Int) else 1) =
          (if V < 0 then (-1 : Int) else 1) := by
        by_cases hV : V < 0
        · rw [if_pos hV, if_pos (by simpa using hV)]
        · rw [if_neg hV, if_neg (by simpa using hV)]
      rw [hb, padDigits_length _ _ hlen]
      apply sign_mul_natAbs
      rw [digitsToNat_padDigits, digitsToNat_natDigits, digitsToNat_natDigits]
      have hfr : fr' * 10 ^ (4 - d) = a % FIXED_POINT_SCALE :=
        Nat.div_mul_cancel hdvdfr
      have hNat : a / FIXED_POINT_SCALE * 10000 + fr' * 10 ^ (4 - d) = a := by
        rw [hfr]
        have hdm := Nat.div_add_mod a FIXED_POINT_SCALE
        have h2 : (FIXED_POINT_SCALE : Nat) = 10000 := rfl
        rw [h2] at hdm ⊢
        omega
      rw [show (10000 : Int) = ((10000 : Nat) : Int) from rfl,
        show (10 : Int) = ((10 : Nat) : Int) from rfl,
        ← Nat.cast_pow, ← Nat.cast_mul, ← Nat.cast_mul, ← Nat.cast_add, hNat]

/-- Claim C1 (codec round-trip): for every decimal string matching
the pattern of an optional minus sign, one or more integer digits, and an
optional dot followed by one to four fractional digits (here ranged over by
its sign/digit decomposition `renderDec neg ip fp`), whose numeric value
fits the 32-bit fixed-point range, `parse_fixed_point` returns exactly the
string's numeric value at scale 10000 together with its decimal-place
count, and `format_fixed_point` applied to that pair produces a decimal
string with exactly the same numeric value and exactly the same
decimal-place count. -/
theorem codec_round_trip (neg : Bool) (ip fp : List (Fin 10))
    (hip : ip ≠ []) (hfp : fp.length ≤ 4)
    (_hrange : (decValue neg ip fp).natAbs ≤ 2 ^ 31 - 1) :
    parse_fixed_point (renderDec neg ip fp) = (decValue neg ip fp, fp.length) ∧
    ∃ neg2 ip2 fp2,
      format_fixed_point (decValue neg ip fp) fp.length = renderDec neg2 ip2 fp2 ∧
      decValue neg2 ip2 fp2 = decValue neg ip fp ∧
      fp2.length = fp.length := by
  refine ⟨parse_render neg ip fp hip hfp, ?_⟩
  have hdvd : ((10 : Int) ^ (4 - fp.length)) ∣ decValue neg ip fp := by
    rw [decValue]
    apply Dvd.dvd.mul_left
    apply dvd_add
    · apply Dvd.dvd.mul_left
      have h1 : ((10 : Int) ^ (4 - fp.length)) ∣ 10 ^ 4 :=
        pow_dvd_pow 10 (by omega)
      have h2 : ((10 : Int) ^ 4) = 10000 := by norm_num
      rwa [h2] at h1
    · exact Dvd.dvd.mul_left dvd_rfl _
  exact format_render _ _ hfp hdvd

/-- Witness for C1 at the spec's own example: the string "0.9523", i.e.
`renderDec false [0] [9,5,2,3]`. -/
theorem codec_round_trip_witness :
    parse_fixed_point (renderDec false [0] [9, 5, 2, 3]) =
        (decValue false [0] [9, 5, 2, 3], ([9, 5, 2, 3] : List (Fin 10)).length) ∧
    ∃ neg2 ip2 fp2,
      format_fixed_point (decValue false [0] [9, 5, 2, 3])
          ([9, 5, 2, 3] : List (Fin 10)).length = renderDec neg2 ip2 fp2 ∧
      decValue neg2 ip2 fp2 = decValue false [0] [9, 5, 2, 3] ∧
      fp2.length = ([9, 5, 2, 3] : List (Fin 10)).length :=
  codec_round_trip false [0] [9, 5, 2, 3] (by decide) (by decide) (by decide)

/-! ## Truncated-division interpolation bounds (shared helpers) -/

theorem tdiv_scale_bounds_nonneg (p d M : Int) (hp0 : 0 ≤ p) (hpM : p ≤ M)
    (hM : 0 < M) (hd : 0 ≤ d) :
    0 ≤ (p * d).tdiv M ∧ (p * d).tdiv M ≤ d := by
  rw [Int.tdiv_eq_ediv (mul_nonneg hp0 hd) hM.le]
  refine ⟨Int.ediv_nonneg (mul_nonneg hp0 hd) hM.le, ?_⟩
  calc (p * d) / M ≤ (M * d) / M :=
        Int.ediv_le_ediv hM (mul_le_mul_of_nonneg_right hpM hd)
    _ = d := Int.mul_ediv_cancel_left d hM.ne'

theorem tdiv_scale_bounds (p d M : Int) (hp0 : 0 ≤ p) (hpM : p ≤ M) (hM : 0 < M) :
    min 0 d ≤ (p * d).tdiv M ∧ (p * d).tdiv M ≤ max 0 d := by
  rcases le_total 0 d with hd | hd
  · have h := tdiv_scale_bounds_nonneg p d M hp0 hpM hM hd
    rw [min_eq_left hd, max_eq_right hd]
    exact h
  · have hd' : 0 ≤ -d := by omega
    have h := tdiv_scale_bounds_nonneg p (-d) M hp0 hpM hM hd'
    have hneg : p * d = -(p * -d) := by ring
    rw [hneg, Int.neg_tdiv, min_eq_right hd, max_eq_left hd]
    omega

theorem tdiv_scale_bounds_succ_nonneg (p d M : Int) (hp0 : 0 ≤ p) (hpM : p ≤ M + 1)
    (hM : 0 < M) (hd0 : 0 ≤ d) (hdM : d < M) :
    0 ≤ (p * d).tdiv M ∧ (p * d).tdiv M ≤ d := by
  rw [Int.tdiv_eq_ediv (mul_nonneg hp0 hd0) hM.le]
  refine ⟨Int.ediv_nonneg (mul_nonneg hp0 hd0) hM.le, ?_⟩
  have h1 : p * d ≤ d + d * M := by nlinarith
  calc (p * d) / M ≤ (d + d * M) / M := Int.ediv_le_ediv hM h1
    _ = d / M + d := Int.add_mul_ediv_right d d hM.ne'
    _ = d := by rw [Int.ediv_eq_zero_of_lt hd0 hdM]; ring

theorem tdiv_scale_bounds_succ (p d M : Int) (hp0 : 0 ≤ p) (hpM : p ≤ M + 1)
    (hM : 0 < M) (hdM : -M < d ∧ d < M) :
    min 0 d ≤ (p * d).tdiv M ∧ (p * d).tdiv M ≤ max 0 d := by
  rcases le_total 0 d with hd | hd
  · have h := tdiv_scale_bounds_succ_nonneg p d M hp0 hpM hM hd hdM.2
    rw [min_eq_left hd, max_eq_right hd]
    exact h
  · have hd' : 0 ≤ -d := by omega
    have h := tdiv_scale_bounds_succ_nonneg p (-d) M hp0 hpM hM hd' (by omega)
    have hneg : p * d = -(p * -d) := by ring
    rw [hneg, Int.neg_tdiv, min_eq_right hd, max_eq_left hd]
    omega

/-! ## History range calculation and graph y-coordinates
(graph_layer_update_proc, wandb-for-pebble.c lines 245-276) -/

/-- Two's-complement wraparound of 32-bit signed arithmetic: the value a C
`int32_t`/`int` operation stores for a mathematical result `x` (assuming
the target's usual wraparound behaviour for signed overflow). -/
def wrap32 (x : Int) : Int := (x + 2147483648) % 4294967296 - 2147483648

theorem wrap32_eq_self (x : Int) (h1 : -2147483648 ≤ x) (h2 : x ≤ 2147483647) :
    wrap32 x = x := by
  rw [wrap32]
  omega

/-- The minimum-scan of `graph_layer_update_proc` lines 253-257: starts at
`history[0]` and lowers on each strictly smaller element. -/
def calc_min (history : List Int) : Int :=
  match history with
  | [] => 0
  | h :: t => t.foldl (fun m x => if x < m then x else m) h

/-- The maximum-scan of `graph_layer_update_proc` lines 253-258. -/
def calc_max (history : List Int) : Int :=
  match history with
  | [] => 0
  | h :: t => t.foldl (fun m x => if m < x then x else m) h

/-- `int32_t range = max_val - min_val; if (range == 0) range = 1;`
(wandb-for-pebble.c lines 261-262).  The subtraction is `int32_t`
arithmetic, so it wraps when the history's spread exceeds the `int32`
range. -/
def calc_range (history : List Int) : Int :=
  let range := wrap32 (calc_max history - calc_min history)
  if range = 0 then 1 else range

/-- The y-coordinate mapping of `graph_layer_update_proc` line 274:
`y = y_offset + graph_height - ((history[i] - min_val) * graph_height / range)`.
The subtraction and the multiplication are 32-bit operations with no
`int64_t` cast (unlike the animation interpolators at lines 413, 643, 683),
so both wrap; the division result and the remaining small additions stay
within `int`. -/
def yCoord (y_offset graph_height min_val range v : Int) : Int :=
  y_offset + graph_height - (wrap32 (wrap32 (v - min_val) * graph_height)).tdiv range

theorem foldl_min_le (t : List Int) (h : Int) :
    t.foldl (fun m x => if x < m then x else m) h ≤ h ∧
      ∀ x ∈ t, t.foldl (fun m x => if x < m then x else m) h ≤ x := by
  induction t generalizing h with
  | nil => simp
  | cons a t ih =>
    have ih' := ih (if a < h then a else h)
    constructor
    · refine le_trans ih'.1 ?_
      split <;> omega
    · intro x hx
      rcases List.mem_cons.mp hx with hx | hx
      · subst hx
        refine le_trans ih'.1 ?_
        split <;> omega
      · exact ih'.2 x hx

theorem foldl_max_ge (t : List Int) (h : Int) :
    h ≤ t.foldl (fun m x => if m < x then x else m) h ∧
      ∀ x ∈ t, x ≤ t.foldl (fun m x => if m < x then x else m) h := by
  induction t generalizing h with
  | nil => simp
  | cons a t ih =>
    have ih' := ih (if h < a then a else h)
    constructor
    · refine le_trans ?_ ih'.1
      split <;> omega
    · intro x hx
      rcases List.mem_cons.mp hx with hx | hx
      · subst hx
        refine le_trans ?_ ih'.1
        split <;> omega
      · exact ih'.2 x hx

theorem calc_min_le_mem (l : List Int) (x : Int) (hx : x ∈ l) : calc_min l ≤ x := by
  cases l with
  | nil => exact absurd hx (List.not_mem_nil x)
  | cons h t =>
    rcases List.mem_cons.mp hx with hx | hx
    · subst hx
      exact (foldl_min_le t x).1
    · exact (foldl_min_le t h).2 x hx

theorem calc_max_ge_mem (l : List Int) (x : Int) (hx : x ∈ l) : x ≤ calc_max l := by
  cases l with
  | nil => exact absurd hx (List.not_mem_nil x)
  | cons h t =>
    rcases List.mem_cons.mp hx with hx | hx
    · subst hx
      exact (foldl_max_ge t x).1
    · exact (foldl_max_ge t h).2 x hx

theorem calc_range_pos (l : List Int) (hne : l ≠ [])
    (hr32 : calc_max l - calc_min l ≤ 2147483647) : 0 < calc_range l := by
  obtain ⟨h, t, rfl⟩ : ∃ h t, l = h :: t := by
    cases l with
    | nil => exact absurd rfl hne
    | cons a b => exact ⟨a, b, rfl⟩
  have hmin : calc_min (h :: t) ≤ h := calc_min_le_mem _ h (List.mem_cons_self h t)
  have hmax : h ≤ calc_max (h :: t) := calc_max_ge_mem _ h (List.mem_cons_self h t)
  have hw : wrap32 (calc_max (h :: t) - calc_min (h :: t)) =
      calc_max (h :: t) - calc_min (h :: t) :=
    wrap32_eq_self _ (by omega) hr32
  rw [calc_range, hw]
  split <;> omega

/-- Claim C7 (range floor): for every non-empty sample sequence in which all
values are equal, the value range computed for graph scaling is 1, never 0,
so the division by `range` in the y-coordinate mapping cannot be a division
by zero. -/
theorem range_floor (l : List Int) (a : Int) (hne : l ≠ [])
    (hall : ∀ x ∈ l, x = a) : calc_range l = 1 := by
  obtain ⟨h, t, rfl⟩ : ∃ h t, l = h :: t := by
    cases l with
    | nil => exact absurd rfl hne
    | cons x y => exact ⟨x, y, rfl⟩
  have hfold : ∀ g : Int → Int → Int, (∀ m x, x = a → m = a → g m x = a) →
      ∀ (t' : List Int), (∀ x ∈ t', x = a) → ∀ m, m = a → t'.foldl g m = a := by
    intro g hg t'
    induction t' with
    | nil => intro _ m hm; simpa using hm
    | cons b t'' ih =>
      intro hall' m hm
      have hb : b = a := hall' b (List.mem_cons_self b t'')
      exact ih (fun x hx => hall' x (List.mem_cons_of_mem b hx)) _ (hg m b hb hm)
  have hmin : calc_min (h :: t) = a := by
    rw [calc_min]
    exact hfold _ (fun m x hx hm => by subst hx; subst hm; simp) t
      (fun x hx => hall x (List.mem_cons_of_mem h hx)) h (hall h (List.mem_cons_self h t))
  have hmax : calc_max (h :: t) = a := by
    rw [calc_max]
    exact hfold _ (fun m x hx hm => by subst hx; subst hm; simp) t
      (fun x hx => hall x (List.mem_cons_of_mem h hx)) h (hall h (List.mem_cons_self h t))
  rw [calc_range, hmin, hmax]
  norm_num [wrap32]

/-- Witness for C7 at the all-equal history `[5, 5, 5]`. -/
theorem range_floor_witness : calc_range [5, 5, 5] = 1 :=
  range_floor [5, 5, 5] 5 (by decide) (by decide)

/-- Counterexample to C6 as stated: on the in-scope `int32` history
`[0, 30000000, 40000000]` (display values 0, 3000, 4000 at scale 10000,
strictly increasing) with graph height 90, the renderer's 32-bit product
`(history[1] - min_val) * graph_height = 2700000000` wraps to
`-1594967296`, so the y-coordinate at index 1 (131) is larger than at
index 0 (92): the claimed monotonicity fails on the program. -/
theorem graph_y_monotone_counterexample :
    ([0, 30000000, 40000000] : List Int).Chain' (· < ·) ∧
    2 ≤ ([0, 30000000, 40000000] : List Int).length ∧
    (0 : Int) ≤ 90 ∧
    yCoord 2 90 (calc_min [0, 30000000, 40000000])
        (calc_range [0, 30000000, 40000000])
        (([0, 30000000, 40000000] : List Int).getD 0 0) <
      yCoord 2 90 (calc_min [0, 30000000, 40000000])
        (calc_range [0, 30000000, 40000000])
        (([0, 30000000, 40000000] : List Int).getD 1 0) :=
  ⟨by simp [List.chain'_cons], by decide, by decide, by decide⟩

/-- Claim C6, amended: for a history of length at least 2 whose sample
sequence is strictly increasing and whose values are close enough together
that the renderer's 32-bit intermediates cannot overflow (the spread
`max - min` fits `int32`, and `(sample - min_val) * graph_height` fits
`int32` for every sample), the y-coordinates computed by the graph renderer
are non-increasing in the sample index: a larger sample is drawn at a
smaller (higher on screen) y. -/
theorem graph_y_monotone (l : List Int) (y_offset graph_height : Int) (i : Nat)
    (hlen : 2 ≤ l.length) (hi : i + 1 < l.length)
    (hmono : l.Chain' (· < ·)) (hgh : 0 ≤ graph_height)
    (hr32 : calc_max l - calc_min l ≤ 2147483647)
    (hprod32 : ∀ x ∈ l, (x - calc_min l) * graph_height ≤ 2147483647) :
    yCoord y_offset graph_height (calc_min l) (calc_range l) (l.getD (i + 1) 0) ≤
      yCoord y_offset graph_height (calc_min l) (calc_range l) (l.getD i 0) := by
  have hne : l ≠ [] := by
    intro h
    rw [h] at hlen
    simp at hlen
  have hi' : i < l.length := by omega
  have hstep : l.getD i 0 < l.getD (i + 1) 0 := by
    rw [List.getD_eq_getElem l 0 hi', List.getD_eq_getElem l 0 hi]
    exact List.chain'_iff_get.mp hmono i (by omega)
  have hmem : l.getD i 0 ∈ l := by
    rw [List.getD_eq_getElem l 0 hi']
    exact l.getElem_mem hi'
  have hmem1 : l.getD (i + 1) 0 ∈ l := by
    rw [List.getD_eq_getElem l 0 hi]
    exact l.getElem_mem hi
  have hmin_i : calc_min l ≤ l.getD i 0 := calc_min_le_mem l _ hmem
  have hmax_i : l.getD i 0 ≤ calc_max l := calc_max_ge_mem l _ hmem
  have hmax_i1 : l.getD (i + 1) 0 ≤ calc_max l := calc_max_ge_mem l _ hmem1
  have hp_i := hprod32 _ hmem
  have hp_i1 := hprod32 _ hmem1
  have hr : 0 < calc_range l := calc_range_pos l hne hr32
  set r := calc_range l with hrdef
  set m := calc_min l with hmdef
  have hA : 0 ≤ (l.getD i 0 - m) * graph_height :=
    mul_nonneg (by omega) hgh
  have hAB : (l.getD i 0 - m) * graph_height ≤ (l.getD (i + 1) 0 - m) * graph_height :=
    mul_le_mul_of_nonneg_right (by omega) hgh
  have hB : 0 ≤ (l.getD (i + 1) 0 - m) * graph_height := le_trans hA hAB
  have hwsub_i : wrap32 (l.getD i 0 - m) = l.getD i 0 - m :=
    wrap32_eq_self _ (by omega) (by omega)
  have hwsub_i1 : wrap32 (l.getD (i + 1) 0 - m) = l.getD (i + 1) 0 - m :=
    wrap32_eq_self _ (by omega) (by omega)
  have hwprod_i : wrap32 ((l.getD i 0 - m) * graph_height) =
      (l.getD i 0 - m) * graph_height :=
    wrap32_eq_self _ (by omega) (by omega)
  have hwprod_i1 : wrap32 ((l.getD (i + 1) 0 - m) * graph_height) =
      (l.getD (i + 1) 0 - m) * graph_height :=
    wrap32_eq_self _ (by omega) (by omega)
  have hdiv : ((l.getD i 0 - m) * graph_height).tdiv r ≤
      ((l.getD (i + 1) 0 - m) * graph_height).tdiv r := by
    rw [Int.tdiv_eq_ediv hA hr.le, Int.tdiv_eq_ediv hB hr.le]
    exact Int.ediv_le_ediv hr hAB
  rw [yCoord, yCoord, hwsub_i, hwsub_i1, hwprod_i, hwprod_i1]
  omega

/-- Witness for C6 (amended) at the strictly increasing history `[1, 4, 9]`
with graph height 10, where no 32-bit intermediate overflows. -/
theorem graph_y_monotone_witness :
    yCoord 2 10 (calc_min [1, 4, 9]) (calc_range [1, 4, 9])
        (([1, 4, 9] : List Int).getD 1 0) ≤
      yCoord 2 10 (calc_min [1, 4, 9]) (calc_range [1, 4, 9])
        (([1, 4, 9] : List Int).getD 0 0) :=
  graph_y_monotone [1, 4, 9] 2 10 0 (by decide) (by decide)
    (by simp [List.chain'_cons]) (by decide) (by decide) (by decide)

/-! ## Scrub state machine (wandb-for-pebble.c lines 602-934)

The mutable globals of the C file relevant to scrub mode are collected in
one state record.  `teardown_count` is a ghost field counting how many
animation teardown callbacks have run; every modelled teardown increments
it, and cancellation paths (which in the C code call `animation_unschedule`
without running the user teardown logic) leave it unchanged. -/

/-- The scrub-mode animation kinds (the four `AnimationImplementation`s
whose handle is stored in `s_scrub_animation`). -/
inductive AnimKind where
  | scrub
  | bounce
  | wiggle
  | exitScrub
deriving DecidableEq

/-- `WandbMetric` (wandb-for-pebble.c lines 23-28): name, pre-formatted
display value, fixed-point history and its count.  Here the history is a
list and `history_count` is its length. -/
structure WandbMetric where
  name : List Char
  value : List Char
  history : List Int
  history_count : Nat
deriving DecidableEq

/-- The static scrub-mode state of the C file: `s_scrub_mode`,
`s_scrub_index` (uint8), the three fixed-point cursor values, the bounce
anchors, the scrub animation handle, the repeat timer, and the two text
layers' contents.  `teardown_count` is a ghost instrumentation field. -/
structure ScrubState where
  s_scrub_mode : Bool
  s_scrub_index : Nat
  s_scrub_from_index_fixed : Int
  s_scrub_to_index_fixed : Int
  s_scrub_current_index_fixed : Int
  s_bounce_target_fixed : Int
  s_bounce_return_fixed : Int
  s_scrub_animation : Option AnimKind
  s_scrub_repeat_timer : Bool
  s_scrub_repeat_direction : Int
  value_text : List Char
  name_text : List Char
  teardown_count : Nat
deriving DecidableEq

/-- `to_uppercase` (wandb-for-pebble.c lines 206-216): copies at most
`size - 1` characters, uppercasing a-z. -/
def to_uppercase (src : List Char) (size : Nat) : List Char :=
  (src.take (size - 1)).map fun c =>
    if 97 ≤ c.toNat ∧ c.toNat ≤ 122 then Char.ofNat (c.toNat - 32) else c

/-- `do_scrub` (wandb-for-pebble.c lines 707-754).  If an animation is in
flight it is unscheduled (no teardown runs) and the current position is
snapped to `s_scrub_to_index_fixed`; an out-of-bounds target schedules a
bounce without changing `s_scrub_index`; an in-bounds target schedules a
scrub animation and commits the index.  `s_scrub_index` is a uint8 in C;
since the guard keeps the stored value within `[0, history_count - 1]` and
`history_count` is itself a uint8, the conversion `Int.toNat` is exact. -/
def do_scrub (metric : WandbMetric) (direction : Int) (st : ScrubState) : ScrubState :=
  let target_index : Int := (st.s_scrub_index : Int) + direction
  let max_index : Int := (metric.history_count : Int) - 1
  let st1 := if st.s_scrub_animation.isSome then
      { st with s_scrub_current_index_fixed := st.s_scrub_to_index_fixed,
                s_scrub_animation := none }
    else st
  if target_index < 0 ∨ target_index > max_index then
    let bounce_amount := SCRUB_FIXED_SCALE.tdiv 3
    { st1 with
      s_scrub_from_index_fixed := st1.s_scrub_current_index_fixed,
      s_bounce_target_fixed :=
        if target_index < 0 then -bounce_amount
        else max_index * SCRUB_FIXED_SCALE + bounce_amount,
      s_bounce_return_fixed :=
        if target_index < 0 then 0 else max_index * SCRUB_FIXED_SCALE,
      s_scrub_animation := some AnimKind.bounce }
  else
    { st1 with
      s_scrub_from_index_fixed := st1.s_scrub_current_index_fixed,
      s_scrub_to_index_fixed := target_index * SCRUB_FIXED_SCALE,
      s_scrub_index := target_index.toNat,
      s_scrub_animation := some AnimKind.scrub }

/-- `exit_scrub_mode` (wandb-for-pebble.c lines 854-882): cancels the
repeat timer and any running scrub animation (again without teardown),
then schedules the exit-scrub animation from the current position to the
most-recent-sample index.  `s_scrub_mode` is not touched here. -/
def exit_scrub_mode (metric : WandbMetric) (st : ScrubState) : ScrubState :=
  let st1 := { st with s_scrub_repeat_timer := false, s_scrub_repeat_direction := 0 }
  let st2 := if st1.s_scrub_animation.isSome then
      { st1 with s_scrub_animation := none }
    else st1
  let target_index_fixed := ((metric.history_count : Int) - 1) * SCRUB_FIXED_SCALE
  { st2 with
    s_scrub_from_index_fixed := st2.s_scrub_current_index_fixed,
    s_scrub_to_index_fixed := target_index_fixed,
    s_scrub_animation := some AnimKind.exitScrub }

/-- `exit_scrub_animation_teardown` (wandb-for-pebble.c lines 833-847):
commits the exit - clears scrub mode, restores the metric's committed
display value and its uppercased name. -/
def exit_scrub_animation_teardown (metric : WandbMetric) (st : ScrubState) : ScrubState :=
  { st with
    s_scrub_mode := false,
    s_scrub_animation := none,
    value_text := metric.value,
    name_text := to_uppercase metric.name MAX_NAME_LENGTH,
    teardown_count := st.teardown_count + 1 }

/-- `bounce_animation_teardown` (wandb-for-pebble.c lines 695-700): snaps
the current position exactly to the bounce return value (the boundary). -/
def bounce_animation_teardown (st : ScrubState) : ScrubState :=
  { st with
    s_scrub_current_index_fixed := st.s_bounce_return_fixed,
    s_scrub_animation := none,
    teardown_count := st.teardown_count + 1 }

/-! ## Animation interpolators (wandb-for-pebble.c lines 677-694, 761-783) -/

/-- The cursor position computed by `bounce_animation_update` at a given
progress: first half toward the overshoot target, second half back. -/
def bounce_position (from_fixed target_fixed return_fixed progress : Int) : Int :=
  if progress < ANIMATION_NORMALIZED_MAX / 2 then
    let out_progress := progress * 2
    from_fixed + (out_progress * (target_fixed - from_fixed)).tdiv ANIMATION_NORMALIZED_MAX
  else
    let back_progress := (progress - ANIMATION_NORMALIZED_MAX / 2) * 2
    target_fixed + (back_progress * (return_fixed - target_fixed)).tdiv ANIMATION_NORMALIZED_MAX

/-- The offset computed by `wiggle_animation_update` at a given progress:
first third to `-amount`, second third from `-amount` up by `3/2 * amount`,
final third from `amount / 2` back to 0. -/
def wiggle_offset (amount progress : Int) : Int :=
  if progress < ANIMATION_NORMALIZED_MAX / 3 then
    -((progress * 3 * amount).tdiv ANIMATION_NORMALIZED_MAX)
  else if progress < 2 * ANIMATION_NORMALIZED_MAX / 3 then
    let p := (progress - ANIMATION_NORMALIZED_MAX / 3) * 3
    (-amount) + ((p * amount * 3).tdiv 2).tdiv ANIMATION_NORMALIZED_MAX
  else
    let p := (progress - 2 * ANIMATION_NORMALIZED_MAX / 3) * 3
    let start_offset := amount.tdiv 2
    start_offset - ((p * start_offset).tdiv ANIMATION_NORMALIZED_MAX)

/-- The cursor position during the wiggle animation
(`s_scrub_current_index_fixed = s_wiggle_start_fixed + offset`). -/
def wiggle_position (start_fixed amount progress : Int) : Int :=
  start_fixed + wiggle_offset amount progress

/-! ### Scrub state machine theorems -/

theorem do_scrub_index_step (m : WandbMetric) (st : ScrubState) (dir : Int)
    (_hN : 1 ≤ m.history_count) (hidx : st.s_scrub_index < m.history_count) :
    (do_scrub m dir st).s_scrub_index < m.history_count := by
  simp only [do_scrub]
  by_cases ha : st.s_scrub_animation.isSome <;>
    simp only [ha, if_true, if_false, Bool.false_eq_true] <;>
    split <;>
    simp only [] <;>
    omega

theorem do_scrub_foldl (m : WandbMetric) (hN : 1 ≤ m.history_count) :
    ∀ (dirs : List Int) (st : ScrubState), st.s_scrub_index < m.history_count →
      (dirs.foldl (fun s d => do_scrub m d s) st).s_scrub_index < m.history_count := by
  intro dirs
  induction dirs with
  | nil => intro st h; exact h
  | cons d rest ih =>
    intro st h
    exact ih _ (do_scrub_index_step m st d hN h)

/-- Claim C3 (scrub discrete-index bounds): for a metric with at least one
history sample, while in scrub mode a directional input whose target index
falls outside `[0, history_count - 1]` schedules a bounce animation and
leaves the discrete index unchanged; consequently `s_scrub_index` stays in
`[0, history_count - 1]` after one input and after any sequence of
directional inputs. -/
theorem scrub_index_bounds (m : WandbMetric) (st : ScrubState) (dir : Int)
    (hN : 1 ≤ m.history_count) (hidx : st.s_scrub_index < m.history_count)
    (_hdir : dir = 1 ∨ dir = -1) :
    (((st.s_scrub_index : Int) + dir < 0 ∨
        (st.s_scrub_index : Int) + dir > (m.history_count : Int) - 1) →
      (do_scrub m dir st).s_scrub_animation = some AnimKind.bounce ∧
      (do_scrub m dir st).s_scrub_index = st.s_scrub_index) ∧
    (do_scrub m dir st).s_scrub_index < m.history_count ∧
    ∀ dirs : List Int, (∀ d ∈ dirs, d = 1 ∨ d = -1) →
      (dirs.foldl (fun s d => do_scrub m d s) st).s_scrub_index < m.history_count := by
  refine ⟨?_, do_scrub_index_step m st dir hN hidx, ?_⟩
  · intro hout
    simp only [do_scrub]
    by_cases ha : st.s_scrub_animation.isSome <;>
      simp only [ha, if_true, if_false, Bool.false_eq_true] <;>
      rw [if_pos hout] <;>
      exact ⟨rfl, rfl⟩
  · intro dirs _hdirs
    exact do_scrub_foldl m hN dirs st hidx

/-- Metric used by the C3 witness: the spec's two-sample "loss" history. -/
def c3Metric : WandbMetric :=
  { name := [], value := [], history := [8500, 234], history_count := 2 }

/-- State used by the C3 witness: scrubbing at index 0 with no animation. -/
def c3State : ScrubState :=
  { s_scrub_mode := true, s_scrub_index := 0, s_scrub_from_index_fixed := 0,
    s_scrub_to_index_fixed := 0, s_scrub_current_index_fixed := 0,
    s_bounce_target_fixed := 0, s_bounce_return_fixed := 0,
    s_scrub_animation := none, s_scrub_repeat_timer := false,
    s_scrub_repeat_direction := 0, value_text := [], name_text := [],
    teardown_count := 0 }

/-- Witness for C3: a 2-sample metric at index 0; pressing down (target -1)
bounces, the index stays 0, and the invariant holds for any held sequence. -/
theorem scrub_index_bounds_witness :
    ((((c3State.s_scrub_index : Nat) : Int) + (-1) < 0 ∨
        ((c3State.s_scrub_index : Nat) : Int) + (-1) >
          ((c3Metric.history_count : Nat) : Int) - 1) →
      (do_scrub c3Metric (-1) c3State).s_scrub_animation = some AnimKind.bounce ∧
      (do_scrub c3Metric (-1) c3State).s_scrub_index = c3State.s_scrub_index) ∧
    (do_scrub c3Metric (-1) c3State).s_scrub_index < c3Metric.history_count ∧
    ∀ dirs : List Int, (∀ d ∈ dirs, d = 1 ∨ d = -1) →
      (dirs.foldl (fun s d => do_scrub c3Metric d s) c3State).s_scrub_index <
        c3Metric.history_count :=
  scrub_index_bounds c3Metric c3State (-1) (by decide) (by decide) (by decide)

/-- Metric used in the C2 counterexample: three history samples. -/
def c2Metric : WandbMetric :=
  { name := [], value := [], history := [0, 0, 0], history_count := 3 }

/-- State used in the C2 counterexample and witness: a scrub animation in
flight from 0 toward 1000 whose current mid-flight position is 300. -/
def c2State : ScrubState :=
  { s_scrub_mode := true, s_scrub_index := 1, s_scrub_from_index_fixed := 0,
    s_scrub_to_index_fixed := 1000, s_scrub_current_index_fixed := 300,
    s_bounce_target_fixed := 0, s_bounce_return_fixed := 0,
    s_scrub_animation := some AnimKind.scrub, s_scrub_repeat_timer := false,
    s_scrub_repeat_direction := 0, value_text := [], name_text := [],
    teardown_count := 0 }

/-- Counterexample to C2 as stated: with a scrub animation in flight whose
current mid-flight position is 300 and whose target is 1000, superseding it
with a new `do_scrub` yields a start value of 1000 (the cancelled
animation's intended end), not 300 (its current fractional position at the
moment of cancellation). -/
theorem scrub_supersession_counterexample :
    c2State.s_scrub_animation.isSome = true ∧
    (do_scrub c2Metric 1 c2State).s_scrub_from_index_fixed ≠
      c2State.s_scrub_current_index_fixed := by
  exact ⟨rfl, by decide⟩

/-- Claim C2, amended: whenever `do_scrub` is called while a scrub-family
animation is in flight, the in-flight animation is cancelled without its
teardown being invoked, and the new animation's start value
`s_scrub_from_index_fixed` equals the superseded animation's intended end
value `s_scrub_to_index_fixed` (the current position is snapped to that end
value before the new animation is computed), not the superseded animation's
original start position, and in general not its current mid-flight
position. -/
theorem scrub_supersession_snaps_to_target (m : WandbMetric) (st : ScrubState)
    (dir : Int) (h : st.s_scrub_animation.isSome = true) :
    (do_scrub m dir st).s_scrub_from_index_fixed = st.s_scrub_to_index_fixed ∧
    (do_scrub m dir st).s_scrub_current_index_fixed = st.s_scrub_to_index_fixed ∧
    (do_scrub m dir st).s_scrub_animation.isSome = true ∧
    (do_scrub m dir st).teardown_count = st.teardown_count := by
  simp only [do_scrub, h, if_true]
  split <;> simp

/-- Witness for C2 (amended) at the concrete in-flight state `c2State`. -/
theorem scrub_supersession_witness :
    (do_scrub c2Metric 1 c2State).s_scrub_from_index_fixed =
        c2State.s_scrub_to_index_fixed ∧
    (do_scrub c2Metric 1 c2State).s_scrub_current_index_fixed =
        c2State.s_scrub_to_index_fixed ∧
    (do_scrub c2Metric 1 c2State).s_scrub_animation.isSome = true ∧
    (do_scrub c2Metric 1 c2State).teardown_count = c2State.teardown_count :=
  scrub_supersession_snaps_to_target c2Metric c2State 1 rfl

/-- Claim C5 (exit-scrub commitment order): `exit_scrub_mode` stops the
repeat timer and schedules an exit-scrub animation from the current
fractional position to the most-recent-sample index; `s_scrub_mode` is
still true when it returns, and only the exit animation's teardown clears
it and restores the committed display value and uppercased name. -/
theorem exit_scrub_commitment (m : WandbMetric) (st : ScrubState)
    (h : st.s_scrub_mode = true) :
    (exit_scrub_mode m st).s_scrub_repeat_timer = false ∧
    (exit_scrub_mode m st).s_scrub_animation = some AnimKind.exitScrub ∧
    (exit_scrub_mode m st).s_scrub_from_index_fixed = st.s_scrub_current_index_fixed ∧
    (exit_scrub_mode m st).s_scrub_to_index_fixed =
      ((m.history_count : Int) - 1) * SCRUB_FIXED_SCALE ∧
    (exit_scrub_mode m st).s_scrub_mode = true ∧
    (exit_scrub_animation_teardown m (exit_scrub_mode m st)).s_scrub_mode = false ∧
    (exit_scrub_animation_teardown m (exit_scrub_mode m st)).value_text = m.value ∧
    (exit_scrub_animation_teardown m (exit_scrub_mode m st)).name_text =
      to_uppercase m.name MAX_NAME_LENGTH := by
  simp only [exit_scrub_mode, exit_scrub_animation_teardown]
  split <;> simp [h]

/-- Metric used by the C5 witness: the spec's two-sample "loss" metric. -/
def c5Metric : WandbMetric :=
  { name := ['l', 'o', 's', 's'], value := ['0', '.', '0', '2', '3', '4'],
    history := [8500, 234], history_count := 2 }

/-- State used by the C5 witness: scrubbing at index 0, cursor at 0. -/
def c5State : ScrubState :=
  { s_scrub_mode := true, s_scrub_index := 0, s_scrub_from_index_fixed := 0,
    s_scrub_to_index_fixed := 0, s_scrub_current_index_fixed := 0,
    s_bounce_target_fixed := 0, s_bounce_return_fixed := 0,
    s_scrub_animation := none, s_scrub_repeat_timer := true,
    s_scrub_repeat_direction := 1, value_text := [], name_text := [],
    teardown_count := 0 }

/-- Witness for C5 at the concrete scrubbing state `c5State`. -/
theorem exit_scrub_commitment_witness :
    (exit_scrub_mode c5Metric c5State).s_scrub_repeat_timer = false ∧
    (exit_scrub_mode c5Metric c5State).s_scrub_animation = some AnimKind.exitScrub ∧
    (exit_scrub_mode c5Metric c5State).s_scrub_from_index_fixed =
        c5State.s_scrub_current_index_fixed ∧
    (exit_scrub_mode c5Metric c5State).s_scrub_to_index_fixed =
      ((c5Metric.history_count : Int) - 1) * SCRUB_FIXED_SCALE ∧
    (exit_scrub_mode c5Metric c5State).s_scrub_mode = true ∧
    (exit_scrub_animation_teardown c5Metric
        (exit_scrub_mode c5Metric c5State)).s_scrub_mode = false ∧
    (exit_scrub_animation_teardown c5Metric
        (exit_scrub_mode c5Metric c5State)).value_text = c5Metric.value ∧
    (exit_scrub_animation_teardown c5Metric
        (exit_scrub_mode c5Metric c5State)).name_text =
      to_uppercase c5Metric.name MAX_NAME_LENGTH :=
  exit_scrub_commitment c5Metric c5State rfl

/-! ### Animation position bounds (claim C4) -/

/-- Counterexample to C4 as stated: the wiggle animation played on entering
scrub mode (start = last index, amount = one sample step) takes the
fractional position past the upper bound `(history_count - 1) * 1000`.
With 12 samples (start 11000) at progress 43689 the position is 11499. -/
theorem scrub_position_counterexample :
    11 * SCRUB_FIXED_SCALE <
      wiggle_position (11 * SCRUB_FIXED_SCALE) SCRUB_FIXED_SCALE 43689 := by
  decide

/-! ### The scrub animation engine as a transition system (claim C4) -/

theorem SCRUB_FIXED_SCALE_eq : SCRUB_FIXED_SCALE = 1000 := rfl

theorem ANIMATION_NORMALIZED_MAX_eq : ANIMATION_NORMALIZED_MAX = 65535 := rfl

theorem SCRUB_tdiv_three : SCRUB_FIXED_SCALE.tdiv 3 = 333 := by decide

theorem int_tdiv_1000_3 : (1000 : Int).tdiv 3 = 333 := by decide

theorem int_tdiv_1000_2 : (1000 : Int).tdiv 2 = 500 := by decide

/-- The top of the valid fractional cursor range,
`(history_count - 1) * SCRUB_FIXED_SCALE`. -/
def maxFixed (metric : WandbMetric) : Int :=
  ((metric.history_count : Int) - 1) * SCRUB_FIXED_SCALE

/-- The cursor position computed by `scrub_animation_update`
(wandb-for-pebble.c lines 640-646), which is also the update function of
the exit-scrub animation: linear interpolation from
`s_scrub_from_index_fixed` toward `s_scrub_to_index_fixed`.  The multiply
is performed in `int64_t` in C, so no wraparound occurs here. -/
def interp_position (from_fixed to_fixed progress : Int) : Int :=
  from_fixed + (progress * (to_fixed - from_fixed)).tdiv ANIMATION_NORMALIZED_MAX

/-- `scrub_animation_teardown` (wandb-for-pebble.c lines 649-666): snaps
the cursor to the animation target, clamps it into
`[0, (history_count - 1) * SCRUB_FIXED_SCALE]`, and re-derives the
discrete index from the clamped cursor. -/
def scrub_animation_teardown (metric : WandbMetric) (st : ScrubState) : ScrubState :=
  let max_fixed := ((metric.history_count : Int) - 1) * SCRUB_FIXED_SCALE
  let cur0 := st.s_scrub_to_index_fixed
  let cur1 := if cur0 < 0 then 0 else cur0
  let cur2 := if cur1 > max_fixed then max_fixed else cur1
  { st with
    s_scrub_current_index_fixed := cur2,
    s_scrub_index := (cur2.tdiv SCRUB_FIXED_SCALE).toNat,
    s_scrub_animation := none,
    teardown_count := st.teardown_count + 1 }

/-- The full state of the scrub animation engine: the scrub statics
together with the wiggle anchors `s_wiggle_start_fixed` and
`s_wiggle_amount` (wandb-for-pebble.c lines 757-758). -/
structure EngineState where
  core : ScrubState
  s_wiggle_start_fixed : Int
  s_wiggle_amount : Int
deriving DecidableEq

/-- Replaces the scrub statics of an engine state, keeping the wiggle
anchors. -/
def setCore (s : EngineState) (c : ScrubState) : EngineState :=
  { s with core := c }

/-- Writes `s_scrub_current_index_fixed`, as an animation update callback
does, leaving every other static untouched. -/
def setCurrent (s : EngineState) (c : Int) : EngineState :=
  { s with core := { s.core with s_scrub_current_index_fixed := c } }

/-- `enter_scrub_mode` (wandb-for-pebble.c lines 809-831): sets the scrub
flag, puts the cursor on the most recent sample, and schedules the wiggle
animation with its start at the cursor and its amplitude one sample step. -/
def enter_scrub_mode (metric : WandbMetric) (s : EngineState) : EngineState :=
  let cur := ((metric.history_count : Int) - 1) * SCRUB_FIXED_SCALE
  { core := { s.core with
      s_scrub_mode := true,
      s_scrub_index := metric.history_count - 1,
      s_scrub_current_index_fixed := cur,
      s_scrub_animation := some AnimKind.wiggle },
    s_wiggle_start_fixed := cur,
    s_wiggle_amount := SCRUB_FIXED_SCALE }

/-- `wiggle_animation_teardown` (wandb-for-pebble.c lines 785-790):
restores the cursor exactly to the wiggle's start position. -/
def wiggle_animation_teardown (s : EngineState) : EngineState :=
  { s with core := { s.core with
      s_scrub_current_index_fixed := s.s_wiggle_start_fixed,
      s_scrub_animation := none,
      teardown_count := s.core.teardown_count + 1 } }

/-- The statically initialised engine state: every static variable of the
C file starts out zero / false / NULL. -/
def engineInit : EngineState :=
  { core :=
      { s_scrub_mode := false
        s_scrub_index := 0
        s_scrub_from_index_fixed := 0
        s_scrub_to_index_fixed := 0
        s_scrub_current_index_fixed := 0
        s_bounce_target_fixed := 0
        s_bounce_return_fixed := 0
        s_scrub_animation := none
        s_scrub_repeat_timer := false
        s_scrub_repeat_direction := 0
        value_text := []
        name_text := []
        teardown_count := 0 },
    s_wiggle_start_fixed := 0, s_wiggle_amount := 0 }

/-- One event of the scrub engine, as driven by the click handlers
(wandb-for-pebble.c lines 905-942) and the animation scheduler: a select
press entering or leaving scrub mode (guarded by `s_scrub_mode`, lines
928-934), a directional press or timer repeat while scrubbing (both call
`do_scrub` only under the `s_scrub_mode` guard, lines 888-896 and
909-918), an animation update callback at a progress within
`[0, ANIMATION_NORMALIZED_MAX]`, or an animation teardown.  Cancellation
of a superseded animation never runs as its own event: it happens inside
`do_scrub` and `exit_scrub_mode`. -/
inductive ScrubStep (m : WandbMetric) : EngineState → EngineState → Prop where
  | enter (s : EngineState) (h : s.core.s_scrub_mode = false) :
      ScrubStep m s (enter_scrub_mode m s)
  | scrub_input (s : EngineState) (dir : Int) (h : s.core.s_scrub_mode = true) :
      ScrubStep m s (setCore s (do_scrub m dir s.core))
  | exit_input (s : EngineState) (h : s.core.s_scrub_mode = true) :
      ScrubStep m s (setCore s (exit_scrub_mode m s.core))
  | tick_scrub (s : EngineState) (p : Int) (hp0 : 0 ≤ p)
      (hpM : p ≤ ANIMATION_NORMALIZED_MAX)
      (h : s.core.s_scrub_animation = some AnimKind.scrub) :
      ScrubStep m s (setCurrent s (interp_position s.core.s_scrub_from_index_fixed
        s.core.s_scrub_to_index_fixed p))
  | tick_exit (s : EngineState) (p : Int) (hp0 : 0 ≤ p)
      (hpM : p ≤ ANIMATION_NORMALIZED_MAX)
      (h : s.core.s_scrub_animation = some AnimKind.exitScrub) :
      ScrubStep m s (setCurrent s (interp_position s.core.s_scrub_from_index_fixed
        s.core.s_scrub_to_index_fixed p))
  | tick_bounce (s : EngineState) (p : Int) (hp0 : 0 ≤ p)
      (hpM : p ≤ ANIMATION_NORMALIZED_MAX)
      (h : s.core.s_scrub_animation = some AnimKind.bounce) :
      ScrubStep m s (setCurrent s (bounce_position s.core.s_scrub_from_index_fixed
        s.core.s_bounce_target_fixed s.core.s_bounce_return_fixed p))
  | tick_wiggle (s : EngineState) (p : Int) (hp0 : 0 ≤ p)
      (hpM : p ≤ ANIMATION_NORMALIZED_MAX)
      (h : s.core.s_scrub_animation = some AnimKind.wiggle) :
      ScrubStep m s (setCurrent s (wiggle_position s.s_wiggle_start_fixed
        s.s_wiggle_amount p))
  | td_scrub (s : EngineState) (h : s.core.s_scrub_animation = some AnimKind.scrub) :
      ScrubStep m s (setCore s (scrub_animation_teardown m s.core))
  | td_bounce (s : EngineState) (h : s.core.s_scrub_animation = some AnimKind.bounce) :
      ScrubStep m s (setCore s (bounce_animation_teardown s.core))
  | td_wiggle (s : EngineState) (h : s.core.s_scrub_animation = some AnimKind.wiggle) :
      ScrubStep m s (wiggle_animation_teardown s)
  | td_exit (s : EngineState) (h : s.core.s_scrub_animation = some AnimKind.exitScrub) :
      ScrubStep m s (setCore s (exit_scrub_animation_teardown m s.core))

/-- Engine states reachable from the initial state by engine events. -/
inductive Reachable (m : WandbMetric) : EngineState → Prop where
  | init : Reachable m engineInit
  | step {s t : EngineState} : Reachable m s → ScrubStep m s t → Reachable m t

/-- The position invariant maintained by every engine event: the animation
anchors stay near the valid range `[0, maxFixed m]`, the cursor never
strays more than one sample step (1000) below it nor more than half a
sample step (500) above it, and at rest in scrub mode the cursor is
exactly inside it. -/
structure PosInvariant (m : WandbMetric) (s : EngineState) : Prop where
  to_lb : 0 ≤ s.core.s_scrub_to_index_fixed
  to_ub : s.core.s_scrub_to_index_fixed ≤ maxFixed m
  btarget_lb : -333 ≤ s.core.s_bounce_target_fixed
  btarget_ub : s.core.s_bounce_target_fixed ≤ maxFixed m + 333
  breturn_lb : 0 ≤ s.core.s_bounce_return_fixed
  breturn_ub : s.core.s_bounce_return_fixed ≤ maxFixed m
  wstart_lb : 0 ≤ s.s_wiggle_start_fixed
  wstart_ub : s.s_wiggle_start_fixed ≤ maxFixed m
  wamount : s.s_wiggle_amount = 0 ∨ s.s_wiggle_amount = 1000
  from_lb : -1000 ≤ s.core.s_scrub_from_index_fixed
  from_ub : s.core.s_scrub_from_index_fixed ≤ maxFixed m + 500
  cur_lb : -1000 ≤ s.core.s_scrub_current_index_fixed
  cur_ub : s.core.s_scrub_current_index_fixed ≤ maxFixed m + 500
  at_rest : s.core.s_scrub_animation = none → s.core.s_scrub_mode = true →
    0 ≤ s.core.s_scrub_current_index_fixed ∧
      s.core.s_scrub_current_index_fixed ≤ maxFixed m

/-- During a scrub or exit-scrub animation the cursor stays between the
animation's start and end values. -/
theorem interp_position_bounds (f t p : Int) (hp0 : 0 ≤ p)
    (hpM : p ≤ ANIMATION_NORMALIZED_MAX) :
    min f t ≤ interp_position f t p ∧ interp_position f t p ≤ max f t := by
  rw [ANIMATION_NORMALIZED_MAX_eq] at hpM
  simp only [interp_position, ANIMATION_NORMALIZED_MAX_eq]
  have hb := tdiv_scale_bounds p (t - f) 65535 hp0 hpM (by norm_num)
  omega

/-- During a bounce the cursor stays between the animation's start, its
overshoot target and its return value. -/
theorem bounce_position_bounds (f t r p : Int) (hp0 : 0 ≤ p)
    (hpM : p ≤ ANIMATION_NORMALIZED_MAX)
    (htr1 : -65535 < r - t) (htr2 : r - t < 65535) :
    min f (min t r) ≤ bounce_position f t r p ∧
      bounce_position f t r p ≤ max f (max t r) := by
  rw [ANIMATION_NORMALIZED_MAX_eq] at hpM
  simp only [bounce_position, ANIMATION_NORMALIZED_MAX_eq]
  split_ifs with h1
  · have hb := tdiv_scale_bounds (p * 2) (t - f) 65535 (by omega) (by omega)
      (by norm_num)
    omega
  · have hb := tdiv_scale_bounds_succ ((p - 65535 / 2) * 2) (r - t) 65535
      (by omega) (by omega) (by norm_num) ⟨htr1, htr2⟩
    omega

/-- During the wiggle the cursor stays within one sample step below and
half a sample step above its start position. -/
theorem wiggle_position_bounds (start amount p : Int) (hp0 : 0 ≤ p)
    (hpM : p ≤ ANIMATION_NORMALIZED_MAX)
    (ham : amount = 0 ∨ amount = 1000) :
    start - 1000 ≤ wiggle_position start amount p ∧
      wiggle_position start amount p ≤ start + 500 := by
  rw [ANIMATION_NORMALIZED_MAX_eq] at hpM
  rcases ham with rfl | rfl
  · simp only [wiggle_position, wiggle_offset, ANIMATION_NORMALIZED_MAX_eq]
    split_ifs <;>
      simp only [mul_zero, zero_mul, Int.zero_tdiv, neg_zero] <;>
      omega
  · simp only [wiggle_position, wiggle_offset, ANIMATION_NORMALIZED_MAX_eq]
    split_ifs with h1 h2
    · have hb := tdiv_scale_bounds_nonneg (p * 3) 1000 65535
        (by omega) (by omega) (by norm_num) (by norm_num)
      omega
    · have hmul : (p - 65535 / 3) * 3 * 1000 * 3 =
          (p - 65535 / 3) * 3 * 1500 * 2 := by ring
      rw [hmul, Int.mul_tdiv_cancel _ (by norm_num : (2 : Int) ≠ 0)]
      have hb := tdiv_scale_bounds_nonneg ((p - 65535 / 3) * 3) 1500 65535
        (by omega) (by omega) (by norm_num) (by norm_num)
      omega
    · rw [int_tdiv_1000_2]
      have hb := tdiv_scale_bounds_nonneg ((p - 2 * 65535 / 3) * 3) 500 65535
        (by omega) (by omega) (by norm_num) (by norm_num)
      omega

/-- `do_scrub` keeps every animation anchor within the invariant bounds,
leaves its start point and cursor inside the valid range, and always
leaves an animation scheduled. -/
theorem do_scrub_preserves (m : WandbMetric) (st : ScrubState) (dir : Int)
    (hN : 1 ≤ m.history_count)
    (hto0 : 0 ≤ st.s_scrub_to_index_fixed)
    (htoM : st.s_scrub_to_index_fixed ≤ maxFixed m)
    (hbt1 : -333 ≤ st.s_bounce_target_fixed)
    (hbt2 : st.s_bounce_target_fixed ≤ maxFixed m + 333)
    (hbr1 : 0 ≤ st.s_bounce_return_fixed)
    (hbr2 : st.s_bounce_return_fixed ≤ maxFixed m)
    (hcur : st.s_scrub_animation = none →
      0 ≤ st.s_scrub_current_index_fixed ∧
        st.s_scrub_current_index_fixed ≤ maxFixed m) :
    (0 ≤ (do_scrub m dir st).s_scrub_to_index_fixed ∧
      (do_scrub m dir st).s_scrub_to_index_fixed ≤ maxFixed m) ∧
    (-333 ≤ (do_scrub m dir st).s_bounce_target_fixed ∧
      (do_scrub m dir st).s_bounce_target_fixed ≤ maxFixed m + 333) ∧
    (0 ≤ (do_scrub m dir st).s_bounce_return_fixed ∧
      (do_scrub m dir st).s_bounce_return_fixed ≤ maxFixed m) ∧
    (0 ≤ (do_scrub m dir st).s_scrub_from_index_fixed ∧
      (do_scrub m dir st).s_scrub_from_index_fixed ≤ maxFixed m) ∧
    (0 ≤ (do_scrub m dir st).s_scrub_current_index_fixed ∧
      (do_scrub m dir st).s_scrub_current_index_fixed ≤ maxFixed m) ∧
    (do_scrub m dir st).s_scrub_animation.isSome = true := by
  have hm1 : (1 : Int) ≤ (m.history_count : Int) := by exact_mod_cast hN
  have hmaxE : maxFixed m = ((m.history_count : Int) - 1) * 1000 := by
    simp only [maxFixed, SCRUB_FIXED_SCALE_eq]
  rcases hsome : st.s_scrub_animation with _ | k
  · have hc := hcur hsome
    simp only [do_scrub, SCRUB_FIXED_SCALE_eq, SCRUB_tdiv_three, int_tdiv_1000_3,
      hsome]
    have hkn : ¬((none : Option AnimKind).isSome = true) := by decide
    rw [if_neg hkn]
    split_ifs with hedge htl <;>
      refine ⟨⟨?_, ?_⟩, ⟨?_, ?_⟩, ⟨?_, ?_⟩, ⟨?_, ?_⟩, ⟨?_, ?_⟩, ?_⟩ <;>
      first
        | ((try dsimp only); omega)
        | rfl
  · simp only [do_scrub, SCRUB_FIXED_SCALE_eq, SCRUB_tdiv_three, int_tdiv_1000_3,
      hsome]
    have hks : (some k).isSome = true := rfl
    rw [if_pos hks]
    split_ifs with hedge htl <;>
      refine ⟨⟨?_, ?_⟩, ⟨?_, ?_⟩, ⟨?_, ?_⟩, ⟨?_, ?_⟩, ⟨?_, ?_⟩, ?_⟩ <;>
      first
        | ((try dsimp only); omega)
        | rfl

/-- Every reachable engine state satisfies the position invariant. -/
theorem reachable_posInvariant (m : WandbMetric) (hN : 1 ≤ m.history_count)
    (hcap : m.history_count ≤ MAX_HISTORY_POINTS) :
    ∀ s : EngineState, Reachable m s → PosInvariant m s := by
  have hm1 : (1 : Int) ≤ (m.history_count : Int) := by exact_mod_cast hN
  have hm20 : (m.history_count : Int) ≤ 20 := by
    have h20 : m.history_count ≤ 20 := hcap
    exact_mod_cast h20
  have hmaxE : maxFixed m = ((m.history_count : Int) - 1) * 1000 := by
    simp only [maxFixed, SCRUB_FIXED_SCALE_eq]
  have hmF0 : 0 ≤ maxFixed m := by omega
  have hmF20 : maxFixed m ≤ 19000 := by omega
  intro s hr
  induction hr with
  | init =>
      refine ⟨?_, ?_, ?_, ?_, ?_, ?_, ?_, ?_, ?_, ?_, ?_, ?_, ?_, ?_⟩ <;>
        simp only [engineInit] <;>
        first
          | omega
          | exact Or.inl rfl
          | exact Or.inl trivial
  | step hprev hstep ih =>
      rename_i s t
      cases hstep with
      | enter hmode =>
          obtain ⟨t1, t2, b1, b2, r1, r2, w1, w2, wa, f1, f2, c1, c2, hrest⟩ := ih
          refine ⟨?_, ?_, ?_, ?_, ?_, ?_, ?_, ?_, ?_, ?_, ?_, ?_, ?_, ?_⟩ <;>
            simp only [enter_scrub_mode, SCRUB_FIXED_SCALE_eq] <;>
            first
              | omega
              | exact wa
              | exact Or.inr rfl
              | exact Or.inr trivial
      | scrub_input dir hmode =>
          obtain ⟨t1, t2, b1, b2, r1, r2, w1, w2, wa, f1, f2, c1, c2, hrest⟩ := ih
          have hd := do_scrub_preserves m s.core dir hN t1 t2 b1 b2 r1 r2
            (fun hnone => hrest hnone hmode)
          obtain ⟨⟨d1, d2⟩, ⟨d3, d4⟩, ⟨d5, d6⟩, ⟨d7, d8⟩, ⟨d9, d10⟩, d11⟩ := hd
          refine ⟨?_, ?_, ?_, ?_, ?_, ?_, ?_, ?_, ?_, ?_, ?_, ?_, ?_, ?_⟩ <;>
            simp only [setCore] <;>
            omega
      | exit_input hmode =>
          obtain ⟨t1, t2, b1, b2, r1, r2, w1, w2, wa, f1, f2, c1, c2, hrest⟩ := ih
          refine ⟨?_, ?_, ?_, ?_, ?_, ?_, ?_, ?_, ?_, ?_, ?_, ?_, ?_, ?_⟩ <;>
            simp only [setCore, exit_scrub_mode, SCRUB_FIXED_SCALE_eq] <;>
            (try split_ifs) <;>
            (try dsimp only) <;>
            first
              | omega
              | exact wa
              | (intro h1 h2; exact absurd h1 (by decide))
      | tick_scrub p hp0 hpM hanim =>
          obtain ⟨t1, t2, b1, b2, r1, r2, w1, w2, wa, f1, f2, c1, c2, hrest⟩ := ih
          have hib := interp_position_bounds s.core.s_scrub_from_index_fixed
            s.core.s_scrub_to_index_fixed p hp0 hpM
          refine ⟨?_, ?_, ?_, ?_, ?_, ?_, ?_, ?_, ?_, ?_, ?_, ?_, ?_, ?_⟩ <;>
            simp only [setCurrent] <;>
            first
              | omega
              | exact wa
              | (intro h1 h2; rw [hanim] at h1; exact absurd h1 (by decide))
      | tick_exit p hp0 hpM hanim =>
          obtain ⟨t1, t2, b1, b2, r1, r2, w1, w2, wa, f1, f2, c1, c2, hrest⟩ := ih
          have hib := interp_position_bounds s.core.s_scrub_from_index_fixed
            s.core.s_scrub_to_index_fixed p hp0 hpM
          refine ⟨?_, ?_, ?_, ?_, ?_, ?_, ?_, ?_, ?_, ?_, ?_, ?_, ?_, ?_⟩ <;>
            simp only [setCurrent] <;>
            first
              | omega
              | exact wa
              | (intro h1 h2; rw [hanim] at h1; exact absurd h1 (by decide))
      | tick_bounce p hp0 hpM hanim =>
          obtain ⟨t1, t2, b1, b2, r1, r2, w1, w2, wa, f1, f2, c1, c2, hrest⟩ := ih
          have hbb := bounce_position_bounds s.core.s_scrub_from_index_fixed
            s.core.s_bounce_target_fixed s.core.s_bounce_return_fixed p hp0 hpM
            (by omega) (by omega)
          refine ⟨?_, ?_, ?_, ?_, ?_, ?_, ?_, ?_, ?_, ?_, ?_, ?_, ?_, ?_⟩ <;>
            simp only [setCurrent] <;>
            first
              | omega
              | exact wa
              | (intro h1 h2; rw [hanim] at h1; exact absurd h1 (by decide))
      | tick_wiggle p hp0 hpM hanim =>
          obtain ⟨t1, t2, b1, b2, r1, r2, w1, w2, wa, f1, f2, c1, c2, hrest⟩ := ih
          have hwb := wiggle_position_bounds s.s_wiggle_start_fixed
            s.s_wiggle_amount p hp0 hpM wa
          refine ⟨?_, ?_, ?_, ?_, ?_, ?_, ?_, ?_, ?_, ?_, ?_, ?_, ?_, ?_⟩ <;>
            simp only [setCurrent] <;>
            first
              | omega
              | exact wa
              | (intro h1 h2; rw [hanim] at h1; exact absurd h1 (by decide))
      | td_scrub hanim =>
          obtain ⟨t1, t2, b1, b2, r1, r2, w1, w2, wa, f1, f2, c1, c2, hrest⟩ := ih
          refine ⟨?_, ?_, ?_, ?_, ?_, ?_, ?_, ?_, ?_, ?_, ?_, ?_, ?_, ?_⟩ <;>
            simp only [setCore, scrub_animation_teardown, SCRUB_FIXED_SCALE_eq] <;>
            first
              | (split_ifs <;> omega)
              | omega
      | td_bounce hanim =>
          obtain ⟨t1, t2, b1, b2, r1, r2, w1, w2, wa, f1, f2, c1, c2, hrest⟩ := ih
          refine ⟨?_, ?_, ?_, ?_, ?_, ?_, ?_, ?_, ?_, ?_, ?_, ?_, ?_, ?_⟩ <;>
            simp only [setCore, bounce_animation_teardown] <;>
            omega
      | td_wiggle hanim =>
          obtain ⟨t1, t2, b1, b2, r1, r2, w1, w2, wa, f1, f2, c1, c2, hrest⟩ := ih
          refine ⟨?_, ?_, ?_, ?_, ?_, ?_, ?_, ?_, ?_, ?_, ?_, ?_, ?_, ?_⟩ <;>
            simp only [wiggle_animation_teardown] <;>
            omega
      | td_exit hanim =>
          obtain ⟨t1, t2, b1, b2, r1, r2, w1, w2, wa, f1, f2, c1, c2, hrest⟩ := ih
          refine ⟨?_, ?_, ?_, ?_, ?_, ?_, ?_, ?_, ?_, ?_, ?_, ?_, ?_, ?_⟩ <;>
            simp only [setCore, exit_scrub_animation_teardown] <;>
            first
              | omega
              | exact wa
              | (intro h1 h2; exact absurd h2 (by decide))

/-- Claim C4, corrected: over every engine state reachable from the
initial state by scrub-engine events, whenever scrub mode is active and no
animation is in flight the fractional position satisfies
`0 ≤ s_scrub_current_index_fixed ≤ (history_count-1)*1000` exactly, and a
bounce teardown always returns the position exactly to the boundary; but
the exception is not limited to bounce animations: while any animation of
the family is in flight (in particular the entry wiggle, or a scrub,
bounce or exit-scrub animation inheriting an earlier overshoot as its
start point), the position may leave the range - never by more than one
sample step (`SCRUB_FIXED_SCALE`) below nor more than half a sample step
(`SCRUB_FIXED_SCALE / 2 = 500`) above it. -/
theorem scrub_position_invariant (m : WandbMetric) (hN : 1 ≤ m.history_count)
    (hcap : m.history_count ≤ MAX_HISTORY_POINTS) (s : EngineState)
    (hr : Reachable m s) :
    (-SCRUB_FIXED_SCALE ≤ s.core.s_scrub_current_index_fixed ∧
      s.core.s_scrub_current_index_fixed ≤
        ((m.history_count : Int) - 1) * SCRUB_FIXED_SCALE +
          SCRUB_FIXED_SCALE.tdiv 2) ∧
    (s.core.s_scrub_animation = none → s.core.s_scrub_mode = true →
      0 ≤ s.core.s_scrub_current_index_fixed ∧
        s.core.s_scrub_current_index_fixed ≤
          ((m.history_count : Int) - 1) * SCRUB_FIXED_SCALE) ∧
    (∀ st : ScrubState,
      (bounce_animation_teardown st).s_scrub_current_index_fixed =
        st.s_bounce_return_fixed) := by
  have hinv := reachable_posInvariant m hN hcap s hr
  have hmaxE : maxFixed m = ((m.history_count : Int) - 1) * 1000 := by
    simp only [maxFixed, SCRUB_FIXED_SCALE_eq]
  have h500 : SCRUB_FIXED_SCALE.tdiv 2 = 500 := by decide
  refine ⟨⟨?_, ?_⟩, ?_, fun st => rfl⟩
  · have hc := hinv.cur_lb
    rw [SCRUB_FIXED_SCALE_eq]
    omega
  · have hc := hinv.cur_ub
    rw [h500, SCRUB_FIXED_SCALE_eq]
    omega
  · intro h1 h2
    have hc := hinv.at_rest h1 h2
    rw [SCRUB_FIXED_SCALE_eq]
    omega

/-- Concrete metric for the C4 witness: two history samples. -/
def c4Metric : WandbMetric :=
  { name := ['l', 'o', 's', 's'], value := ['1', '.', '5'],
    history := [10000, 15000], history_count := 2 }

/-- Witness for C4 (corrected) at the reachable state obtained by entering
scrub mode from the initial state. -/
theorem scrub_position_invariant_witness :
    (-SCRUB_FIXED_SCALE ≤
        (enter_scrub_mode c4Metric engineInit).core.s_scrub_current_index_fixed ∧
      (enter_scrub_mode c4Metric engineInit).core.s_scrub_current_index_fixed ≤
        ((c4Metric.history_count : Int) - 1) * SCRUB_FIXED_SCALE +
          SCRUB_FIXED_SCALE.tdiv 2) ∧
    ((enter_scrub_mode c4Metric engineInit).core.s_scrub_animation = none →
      (enter_scrub_mode c4Metric engineInit).core.s_scrub_mode = true →
      0 ≤ (enter_scrub_mode c4Metric engineInit).core.s_scrub_current_index_fixed ∧
        (enter_scrub_mode c4Metric engineInit).core.s_scrub_current_index_fixed ≤
          ((c4Metric.history_count : Int) - 1) * SCRUB_FIXED_SCALE) ∧
    (∀ st : ScrubState,
      (bounce_animation_teardown st).s_scrub_current_index_fixed =
        st.s_bounce_return_fixed) :=
  scrub_position_invariant c4Metric (by decide) (by decide)
    (enter_scrub_mode c4Metric engineInit)
    (Reachable.step Reachable.init (ScrubStep.enter engineInit rfl))

/-! ## Scrub value display (claim C10)
(update_scrub_value_display_interpolated, wandb-for-pebble.c lines 609-639) -/

/-- The clamping step of `update_scrub_value_display_interpolated` (lines
613-616): the fixed-point index is clamped into
`[0, (history_count - 1) * SCRUB_FIXED_SCALE]` before any array access. -/
def scrub_clamped_index (history_count : Nat) (index_fixed : Int) : Int :=
  let i1 := if index_fixed < 0 then 0 else index_fixed
  let max_fixed := ((history_count : Int) - 1) * SCRUB_FIXED_SCALE
  if i1 > max_fixed then max_fixed else i1

/-- The interpolated history value computed by
`update_scrub_value_display_interpolated` (lines 618-630): integer and
fractional parts of the clamped index select two adjacent samples, which
are blended by `v1 + (v2 - v1) * frac / SCRUB_FIXED_SCALE`; at the top
boundary the last sample is used directly.  The sample subtraction and the
multiplication by `frac` are 32-bit `int32_t` operations with no `int64_t`
cast (unlike the animation interpolators), so both wrap; the division
result and the final addition stay within `int32` for the cases the claims
consider. -/
def scrub_history_value (history : List Int) (index_fixed : Int) : Int :=
  let c := scrub_clamped_index history.length index_fixed
  let idx_int := c.tdiv SCRUB_FIXED_SCALE
  let frac := c.tmod SCRUB_FIXED_SCALE
  if (history.length : Int) - 1 ≤ idx_int then
    history.getD (history.length - 1) 0
  else
    history.getD idx_int.toNat 0 +
      (wrap32 (wrap32 (history.getD (idx_int.toNat + 1) 0 -
        history.getD idx_int.toNat 0) * frac)).tdiv SCRUB_FIXED_SCALE

/-- Counterexample to C10 as stated: with the in-scope `int32` samples
`[0, 3000000]` (display values 0 and 300 at scale 10000) and fixed index
900, the 32-bit product `(v2 - v1) * frac = 2700000000` wraps to
`-1594967296` and the displayed value `-1594967` lies below every stored
sample: an extrapolation, not an interpolation between stored samples. -/
theorem scrub_value_display_counterexample :
    ([0, 3000000] : List Int) ≠ [] ∧
    scrub_history_value [0, 3000000] 900 <
      min (([0, 3000000] : List Int).getD 0 0)
        (([0, 3000000] : List Int).getD 1 0) :=
  ⟨by decide, by decide⟩

/-- Claim C10, amended: for every metric with at least one sample, the
fixed-point index is clamped into `[0, (history_count-1)*1000]`, so every
history access made by the value display is in bounds; and provided the
adjacent-sample differences are small enough that the 32-bit product
`(v2 - v1) * frac` cannot overflow (`|v2 - v1| * 999` fits `int32`), the
displayed value is always an interpolation between two adjacent stored
samples (at the edge, the boundary sample itself), never an extrapolation
beyond the stored values. -/
theorem scrub_value_display_clamped (history : List Int) (ix : Int)
    (hne : history ≠ [])
    (hnov : ∀ i : Nat, i + 1 < history.length →
      (history.getD (i + 1) 0 - history.getD i 0).natAbs * 999 ≤ 2147483647) :
    (0 ≤ scrub_clamped_index history.length ix ∧
      scrub_clamped_index history.length ix ≤
        ((history.length : Int) - 1) * SCRUB_FIXED_SCALE) ∧
    ∃ i : Nat, i < history.length ∧
      ((i + 1 < history.length ∧
          min (history.getD i 0) (history.getD (i + 1) 0) ≤
            scrub_history_value history ix ∧
          scrub_history_value history ix ≤
            max (history.getD i 0) (history.getD (i + 1) 0)) ∨
        scrub_history_value history ix = history.getD i 0) := by
  have hlen : 0 < history.length := List.length_pos.mpr hne
  have hlen' : (1 : Int) ≤ (history.length : Int) := by exact_mod_cast hlen
  have hclamp : 0 ≤ scrub_clamped_index history.length ix ∧
      scrub_clamped_index history.length ix ≤
        ((history.length : Int) - 1) * SCRUB_FIXED_SCALE := by
    simp only [scrub_clamped_index, SCRUB_FIXED_SCALE]
    split_ifs <;> constructor <;> omega
  refine ⟨hclamp, ?_⟩
  rw [scrub_history_value]
  set c := scrub_clamped_index history.length ix with hc
  have hc0 : 0 ≤ c := hclamp.1
  have hcM : c ≤ ((history.length : Int) - 1) * 1000 := by
    have h := hclamp.2
    rwa [show SCRUB_FIXED_SCALE = 1000 from rfl] at h
  have htd : c.tdiv SCRUB_FIXED_SCALE = c / 1000 := by
    rw [show SCRUB_FIXED_SCALE = 1000 from rfl]
    exact Int.tdiv_eq_ediv hc0 (by norm_num)
  have htm : c.tmod SCRUB_FIXED_SCALE = c % 1000 := by
    rw [show SCRUB_FIXED_SCALE = 1000 from rfl]
    exact Int.tmod_eq_emod hc0 (by norm_num)
  rw [htd, htm]
  by_cases hbr : (history.length : Int) - 1 ≤ c / 1000
  · rw [if_pos hbr]
    exact ⟨history.length - 1, by omega, Or.inr rfl⟩
  · rw [if_neg hbr]
    have hi0 : 0 ≤ c / 1000 := Int.ediv_nonneg hc0 (by norm_num)
    have hiub : c / 1000 < (history.length : Int) - 1 := by omega
    have hfrac0 : 0 ≤ c % 1000 := Int.emod_nonneg c (by norm_num)
    have hfrac1 : c % 1000 < 1000 := Int.emod_lt_of_pos c (by norm_num)
    have hpair := hnov (c / 1000).toNat (by omega)
    rw [show SCRUB_FIXED_SCALE = (1000 : Int) from rfl]
    set A := history.getD (c / 1000).toNat 0 with hA
    set B := history.getD ((c / 1000).toNat + 1) 0 with hB
    have hpairI : ((B - A).natAbs : Int) * 999 ≤ 2147483647 := by
      exact_mod_cast hpair
    have hw1 : wrap32 (B - A) = B - A :=
      wrap32_eq_self _ (by omega) (by omega)
    have hprodle : -2147483648 ≤ (B - A) * (c % 1000) ∧
        (B - A) * (c % 1000) ≤ 2147483647 := by
      rcases le_total 0 (B - A) with hd | hd
      · have h1 : (B - A) * (c % 1000) ≤ (B - A) * 999 :=
          mul_le_mul_of_nonneg_left (by omega) hd
        have h2 : 0 ≤ (B - A) * (c % 1000) := mul_nonneg hd hfrac0
        constructor <;> omega
      · have h1 : (B - A) * 999 ≤ (B - A) * (c % 1000) :=
          mul_le_mul_of_nonpos_left (by omega) hd
        have h2 : (B - A) * (c % 1000) ≤ 0 :=
          mul_nonpos_iff.mpr (Or.inr ⟨hd, hfrac0⟩)
        constructor <;> omega
    have hw2 : wrap32 ((B - A) * (c % 1000)) = (B - A) * (c % 1000) :=
      wrap32_eq_self _ hprodle.1 hprodle.2
    rw [hw1, hw2]
    have hboth : min A B ≤ A + ((B - A) * (c % 1000)).tdiv 1000 ∧
        A + ((B - A) * (c % 1000)).tdiv 1000 ≤ max A B := by
      have hcm : (B - A) * (c % 1000) = (c % 1000) * (B - A) := mul_comm _ _
      rw [hcm]
      have hb := tdiv_scale_bounds (c % 1000) (B - A) 1000 hfrac0 (by omega)
        (by norm_num)
      rcases le_total A B with hAB | hAB
      · rw [min_eq_left (by omega : (0 : Int) ≤ B - A),
          max_eq_right (by omega : (0 : Int) ≤ B - A)] at hb
        rw [min_eq_left hAB, max_eq_right hAB]
        omega
      · rw [min_eq_right (by omega : B - A ≤ 0),
          max_eq_left (by omega : B - A ≤ 0)] at hb
        rw [min_eq_right hAB, max_eq_left hAB]
        omega
    exact ⟨(c / 1000).toNat, by omega, Or.inl ⟨by omega, hboth.1, hboth.2⟩⟩

/-- Witness for C10 at history `[8500, 234]` and fixed index 1500 (which
the clamp reduces to 1000, the last sample). -/
theorem scrub_value_display_clamped_witness :
    (0 ≤ scrub_clamped_index ([8500, 234] : List Int).length 1500 ∧
      scrub_clamped_index ([8500, 234] : List Int).length 1500 ≤
        ((([8500, 234] : List Int).length : Int) - 1) * SCRUB_FIXED_SCALE) ∧
    ∃ i : Nat, i < ([8500, 234] : List Int).length ∧
      ((i + 1 < ([8500, 234] : List Int).length ∧
          min (([8500, 234] : List Int).getD i 0)
              (([8500, 234] : List Int).getD (i + 1) 0) ≤
            scrub_history_value [8500, 234] 1500 ∧
          scrub_history_value [8500, 234] 1500 ≤
            max (([8500, 234] : List Int).getD i 0)
              (([8500, 234] : List Int).getD (i + 1) 0)) ∨
        scrub_history_value [8500, 234] 1500 = ([8500, 234] : List Int).getD i 0) :=
  scrub_value_display_clamped [8500, 234] 1500 (by decide)
    (by
      intro i hi
      have h0 : i = 0 := by simp at hi; omega
      subst h0
      decide)

/-! ## Run capacity (claim C9) -/

/-- `WandbRun` (wandb-for-pebble.c lines 30-35): run name, project name, a
fixed-size array of `MAX_METRICS_PER_RUN` metrics and the count in use. -/
structure WandbRun where
  run_name : List Char
  project_name : List Char
  metrics : Fin MAX_METRICS_PER_RUN → WandbMetric
  num_metrics : Nat

/-- Counterexample to C9 as stated: the per-run metric capacity defined by
the code (`#define MAX_METRICS_PER_RUN 8`) is not 18. -/
theorem run_metric_capacity_counterexample : MAX_METRICS_PER_RUN ≠ 18 := by
  decide

/-- Claim C9, amended: a Run's metrics field is a bounded sequence holding
up to 8 Metric entries; the per-run metric capacity against which
`num_metrics` is bounded is `MAX_METRICS_PER_RUN = 8`. -/
theorem run_metric_capacity :
    MAX_METRICS_PER_RUN = 8 ∧
    ∀ r : WandbRun, (List.ofFn r.metrics).length = 8 := by
  refine ⟨rfl, fun r => ?_⟩
  rw [List.length_ofFn]
  rfl

/-! ## History packing (packInt64Array, src/pkjs/index.js lines 338-362) -/

/-- The four bytes stored by `DataView.setUint32(·, x, true)` (little
endian) for `x < 2^32`, as read back from the underlying buffer. -/
def toBytesLE4 (x : Nat) : List Nat :=
  [x % 256, x / 256 % 256, x / 65536 % 256, x / 16777216 % 256]

/-- The 8 bytes produced for one value by the loop body of `packInt64Array`
(index.js lines 341-354): split `|val|` into low/high 32-bit halves (the JS
`>>> 0` is `% 2^32`; `Math.floor(val / 4294967296)` is the exact quotient
because `|val| ≤ 2^53` is exactly representable), then for negative values
take the two's complement, with the carry into the high word exactly when
the complemented low word is zero. -/
def packInt64 (val : Int) : List Nat :=
  let a := val.natAbs
  let low := a % 4294967296
  let high := a / 4294967296 % 4294967296
  let low2 := if val < 0 then (4294967295 - low + 1) % 4294967296 else low
  let high2 := if val < 0 then
      (4294967295 - high + (if low2 = 0 then 1 else 0)) % 4294967296
    else high
  toBytesLE4 low2 ++ toBytesLE4 high2

/-- `packInt64Array` (index.js lines 338-362): 8 bytes per value,
little-endian, concatenated in order. -/
def packInt64Array : List Int → List Nat
  | [] => []
  | v :: rest => packInt64 v ++ packInt64Array rest

/-- The numeric value of a little-endian byte sequence (the claim's
reference reading of the wire bytes). -/
def fromBytesLE (bs : List Nat) : Nat := bs.foldr (fun b acc => b + 256 * acc) 0

/-- The decoding named by the claim: read 8 little-endian bytes as a
two's-complement signed 64-bit integer. -/
def decodeInt64LE (bs : List Nat) : Int :=
  let n := fromBytesLE bs
  if n < 9223372036854775808 then (n : Int) else (n : Int) - 18446744073709551616

/-- The decoding named by the claim applied to each consecutive 8-byte
block. -/
def unpackInt64Blocks : List Nat → List Int
  | b0 :: b1 :: b2 :: b3 :: b4 :: b5 :: b6 :: b7 :: rest =>
      decodeInt64LE [b0, b1, b2, b3, b4, b5, b6, b7] :: unpackInt64Blocks rest
  | _ => []

theorem fromBytes_pair (x y : Nat) (hx : x < 4294967296) (hy : y < 4294967296) :
    fromBytesLE (toBytesLE4 x ++ toBytesLE4 y) = x + 4294967296 * y := by
  simp only [fromBytesLE, toBytesLE4, List.cons_append, List.nil_append,
    List.foldr_cons, List.foldr_nil]
  omega

theorem packInt64_length (v : Int) : (packInt64 v).length = 8 := by
  simp [packInt64, toBytesLE4]

theorem negWords (a : Nat) (h1 : 0 < a) (h2 : a ≤ 9007199254740992) :
    (4294967295 - a % 4294967296 + 1) % 4294967296 +
      4294967296 * ((4294967295 - a / 4294967296 % 4294967296 +
        (if (4294967295 - a % 4294967296 + 1) % 4294967296 = 0 then 1 else 0)) %
        4294967296) =
    18446744073709551616 - a := by
  by_cases hlow : a % 4294967296 = 0
  · rw [if_pos (by omega)]
    omega
  · rw [if_neg (by omega)]
    omega

theorem packInt64_decode (v : Int) (h : v.natAbs ≤ 2 ^ 53) :
    decodeInt64LE (packInt64 v) = v := by
  have h53 : (2 : Nat) ^ 53 = 9007199254740992 := by norm_num
  rw [h53] at h
  by_cases hneg : v < 0
  · have hv : v = -(v.natAbs : Int) := by omega
    have hpos : 0 < v.natAbs := by omega
    have hwords := negWords v.natAbs hpos h
    simp only [packInt64, if_pos hneg, decodeInt64LE]
    rw [fromBytes_pair _ _ (by omega) (by omega)]
    rw [if_neg (by omega)]
    omega
  · have hv : v = (v.natAbs : Int) := by omega
    simp only [packInt64, if_neg hneg, decodeInt64LE]
    rw [fromBytes_pair _ _ (by omega) (by omega)]
    rw [if_pos (by omega)]
    omega

theorem unpack_block (b0 b1 b2 b3 b4 b5 b6 b7 : Nat) (l : List Nat) :
    unpackInt64Blocks (b0 :: b1 :: b2 :: b3 :: b4 :: b5 :: b6 :: b7 :: l) =
      decodeInt64LE [b0, b1, b2, b3, b4, b5, b6, b7] :: unpackInt64Blocks l := rfl

theorem unpack_cons (v : Int) (l : List Nat) :
    unpackInt64Blocks (packInt64 v ++ l) =
      decodeInt64LE (packInt64 v) :: unpackInt64Blocks l := by
  simp only [packInt64, toBytesLE4, List.cons_append, List.nil_append]
  exact unpack_block _ _ _ _ _ _ _ _ l

/-- Claim C8 (history packing round-trip): for every sequence of signed
fixed-point integer values, each exactly representable as a JavaScript
number (|v| ≤ 2^53) and hence within the signed 64-bit range,
`packInt64Array` produces exactly 8 bytes per value such that decoding each
consecutive 8-byte block as a little-endian two's-complement signed 64-bit
integer reproduces the original sequence exactly, including negative
values. -/
theorem pack_round_trip (vals : List Int) (h : ∀ v ∈ vals, v.natAbs ≤ 2 ^ 53) :
    (packInt64Array vals).length = 8 * vals.length ∧
    unpackInt64Blocks (packInt64Array vals) = vals := by
  induction vals with
  | nil => exact ⟨rfl, rfl⟩
  | cons v rest ih =>
    have hv := h v (List.mem_cons_self v rest)
    have ih' := ih fun x hx => h x (List.mem_cons_of_mem v hx)
    refine ⟨?_, ?_⟩
    · rw [packInt64Array, List.length_append, packInt64_length v, ih'.1,
        List.length_cons]
      ring
    · rw [packInt64Array, unpack_cons, packInt64_decode v hv, ih'.2]

/-- Witness for C8 at the claim's example sequence `[-50000, 20000, 487200]`. -/
theorem pack_round_trip_witness :
    (packInt64Array [-50000, 20000, 487200]).length =
        8 * ([-50000, 20000, 487200] : List Int).length ∧
    unpackInt64Blocks (packInt64Array [-50000, 20000, 487200]) =
      [-50000, 20000, 487200] :=
  pack_round_trip [-50000, 20000, 487200] (by decide)

end WandB
